import Mathlib

/-!
Verification of the dirty-edit scanner core of Wrye Bash
(`Mopy/bash/bosh/mods_metadata.py`): `ModCleaner.scan_Many`,
`NvidiaFogFixer.fix_fog` and `ModDetails.readFromMod.getRecordReader`.

The binary plugin format is embedded at the byte level: a file is a
`List Nat` of byte values.  The streaming reader `ModReader` and the
record-header codec live in the repository's `brec` module, which is not
part of the studied sources; those primitives are modelled from the
specification (little-endian typed reads over a seekable cursor, a fixed
20-byte record/group header `{type_tag, size, flags|label, fid|group_type,
vci|stamp}`, 6-byte subrecord headers `{4-byte tag, u16 size}`, reads past
end-of-file fail).  Everything above that layer is translated directly
from `mods_metadata.py`.
-/

namespace WryeBash

/-- Little-endian decoding of (the first four bytes of) a byte list,
as `struct.unpack` of a `u32` does. -/
def le32dec (l : List Nat) : Nat :=
  l.getD 0 0 + 256 * l.getD 1 0 + 65536 * l.getD 2 0 + 16777216 * l.getD 3 0

/-- Little-endian encoding of a 32-bit value as four bytes. -/
def le32enc (x : Nat) : List Nat :=
  [x % 256, x / 256 % 256, x / 65536 % 256, x / 16777216 % 256]

/-- Modelled from the spec: `ModReader.read(n)` — consume exactly `n` bytes
of the stream; reading past end-of-file is an error (`none`). -/
def readN (n : Nat) (s : List Nat) : Option (List Nat × List Nat) :=
  if n ≤ s.length then some (s.take n, s.drop n) else none

/-- Build the numeric value of a 4-character ASCII tag, little-endian,
matching how a 4-byte type tag decodes under `le32dec`. -/
def mkTag (a b c d : Nat) : Nat :=
  a + 256 * b + 65536 * c + 16777216 * d

def tagGRUP : Nat := mkTag 71 82 85 80
def tagCELL : Nat := mkTag 67 69 76 76
def tagWRLD : Nat := mkTag 87 82 76 68
def tagREFR : Nat := mkTag 82 69 70 82
def tagACHR : Nat := mkTag 65 67 72 82
def tagACRE : Nat := mkTag 65 67 82 69
def tagNAVM : Nat := mkTag 78 65 86 77
def tagPHZD : Nat := mkTag 80 72 90 68
def tagPGRE : Nat := mkTag 80 71 82 69
def tagXCLL : Nat := mkTag 88 67 76 76
def tagEDID : Nat := mkTag 69 68 73 68
def tagXCLC : Nat := mkTag 88 67 76 67

/-- The allow-list of record types checked by the UDR detector,
from `ModCleaner.scan_Many`:
`('ACRE', 'ACHR', 'REFR', 'NAVM', 'PHZD', 'PGRE')`. -/
def udrTypes : List Nat := [tagACRE, tagACHR, tagREFR, tagNAVM, tagPHZD, tagPGRE]

/-- An IEEE-754 single-precision value compares equal to `0.0` (is falsy in
Python) exactly when its bit pattern is `+0.0` or `-0.0`. -/
def f32IsZero (bits : Nat) : Bool :=
  bits == 0 || bits == 0x80000000

/-- The four bytes of `struct.pack('<f', 0.0001)`, the epsilon the fog fixer
writes into the `fogNear` field (bit pattern `0x38d1b717`). -/
def epsBytes : List Nat := [0x17, 0xb7, 0xd1, 0x38]

/-- One field of a Python `struct` format: a fixed byte string `NNs`,
an `f` (f32) or an `l` (i32, standard size). -/
inductive StructField where
  | bytesF (n : Nat)
  | f32F
  | i32F
deriving DecidableEq

/-- Byte width of one struct field under standard (`=`) sizing. -/
def StructField.width : StructField → Nat
  | .bytesF n => n
  | .f32F => 4
  | .i32F => 4

/-- `struct.calcsize`: total byte width of a format. -/
def structCalcSize (fmt : List StructField) : Nat :=
  (fmt.map StructField.width).sum

/-- The format string `'=12s2f2l2f'` of the `CELL.XCLL` unpacker used by
`ModCleaner.scan_Many` and `NvidiaFogFixer.fix_fog`. -/
def xcllFmt : List StructField :=
  [.bytesF 12, .f32F, .f32F, .i32F, .i32F, .f32F, .f32F]

/-- The number of bytes `struct.Struct('=12s2f2l2f')` consumes. -/
def xcllSize : Nat := structCalcSize xcllFmt

/-- The seven fields unpacked from an XCLL payload, kept as raw byte
chunks: `(color, near, far, rotXY, rotZ, fade, clip)`. -/
structure XcllFields where
  color : List Nat
  fogNear : List Nat
  fogFar : List Nat
  rotXY : List Nat
  rotZ : List Nat
  fade : List Nat
  clip : List Nat
deriving DecidableEq

/-- Split a 36-byte buffer into the seven XCLL fields. -/
def splitXcll (b : List Nat) : XcllFields :=
  ⟨b.take 12, ((b.drop 12).take 4), ((b.drop 16).take 4), ((b.drop 20).take 4),
    ((b.drop 24).take 4), ((b.drop 28).take 4), ((b.drop 32).take 4)⟩

/-- `ins_unpack(size, 'CELL.XCLL')` — `partial(ins.unpack, __unpacker)` in
`scan_Many`/`fix_fog`: read `size` bytes from the stream, then apply the
`'=12s2f2l2f'` unpacker, which fails (struct.error) unless exactly
`xcllSize` bytes were handed to it. -/
def unpackXcll (size : Nat) (s : List Nat) : Option (XcllFields × List Nat) :=
  match readN size s with
  | none => none
  | some (buf, rest) =>
      if size = xcllSize then some (splitXcll buf, rest) else none

/-- The Python truthiness test `not (near or far or clip)` on the three
float fields of an XCLL payload. -/
def xcllAllZero (f : XcllFields) : Bool :=
  f32IsZero (le32dec f.fogNear) && f32IsZero (le32dec f.fogFar) &&
    f32IsZero (le32dec f.clip)

/-- Modelled from the spec: the fixed 20-byte record/group header:
`{type_tag, body_size, flags, form_id, vci}` for leaf records, reinterpreted
as `{group_size, label, group_type, stamp}` for `GRUP` frames.  The three
payload words after the size are stored as `w2`, `w3`, `w4`. -/
structure RecHeader where
  rtype : Nat
  hsize : Nat
  w2 : Nat
  w3 : Nat
  w4 : Nat
deriving DecidableEq

/-- Leaf-record flags field (`header.flags1`). -/
def RecHeader.flags1 (h : RecHeader) : Nat := h.w2

/-- Group label (`header.label`), as its 32-bit value. -/
def RecHeader.label (h : RecHeader) : Nat := h.w2

/-- Leaf-record form id (`header.fid`). -/
def RecHeader.fid (h : RecHeader) : Nat := h.w3

/-- Group type (`header.groupType`). -/
def RecHeader.groupType (h : RecHeader) : Nat := h.w3

/-- `RecordHeader.rec_header_size` for the 20-byte header layout. -/
def recHeaderSize : Nat := 20

/-- Modelled from the spec: a typed little-endian `u32` read consuming
exactly four bytes. -/
def read32 (s : List Nat) : Option (Nat × List Nat) :=
  match readN 4 s with
  | none => none
  | some (b, rest) => some (le32dec b, rest)

/-- Modelled from the spec: a typed little-endian `u16` read consuming
exactly two bytes. -/
def read16 (s : List Nat) : Option (Nat × List Nat) :=
  match readN 2 s with
  | none => none
  | some (b, rest) => some (b.getD 0 0 + 256 * b.getD 1 0, rest)

/-- Modelled from the spec: `ModReader.unpackRecHeader` — read the fixed
20-byte header as five little-endian words.  Group frames are
distinguished from leaf frames downstream, purely by the type tag. -/
def unpackRecHeader (s : List Nat) : Option (RecHeader × List Nat) :=
  match read32 s with
  | none => none
  | some (t, s1) =>
    match read32 s1 with
    | none => none
    | some (sz, s2) =>
      match read32 s2 with
      | none => none
      | some (a, s3) =>
        match read32 s3 with
        | none => none
        | some (b, s4) =>
          match read32 s4 with
          | none => none
          | some (c, s5) => some (⟨t, sz, a, b, c⟩, s5)

/-- Modelled from the spec: `ModReader.unpackSubHeader` — read a 6-byte
subrecord header: 4-byte type tag plus little-endian u16 size. -/
def unpackSubHeader (s : List Nat) : Option ((Nat × Nat) × List Nat) :=
  match read32 s with
  | none => none
  | some (t, s1) =>
    match read16 s1 with
    | none => none
    | some (sz, s2) => some ((t, sz), s2)

/-- `ModCleaner.UdrInfo`: one UDR finding.  Editor ids are kept as raw byte
strings. -/
structure UdrInfo where
  fid : Nat
  rtype : Option Nat
  parentFid : Option Nat
  parentEid : List Nat
  parentType : Option Nat
  pos : Option (Nat × Nat)
  parentParentFid : Option Nat
  parentParentEid : List Nat
deriving DecidableEq

/-- A fresh non-detailed finding, `UdrInfo(header_fid)`. -/
def UdrInfo.bare (f : Nat) : UdrInfo := ⟨f, none, none, [], none, none, none, []⟩

/-- Python `dict` assignment `d[k] = v`: replace in place or append. -/
def assocSet (k : Nat) (v : UdrInfo) : List (Nat × UdrInfo) → List (Nat × UdrInfo)
  | [] => [(k, v)]
  | (k', v') :: t => if k = k' then (k, v) :: t else (k', v') :: assocSet k v t

/-- Python `dict` lookup. -/
def assocGet (k : Nat) : List (Nat × UdrInfo) → Option UdrInfo
  | [] => none
  | (k', v') :: t => if k = k' then some v' else assocGet k t

/-- Update the value stored under a present key (no-op when absent). -/
def assocMod (k : Nat) (f : UdrInfo → UdrInfo) : List (Nat × UdrInfo) → List (Nat × UdrInfo)
  | [] => []
  | (k', v') :: t => if k = k' then (k', f v') :: t else (k', v') :: assocMod k f t

/-- Python `set.add`. -/
def setInsert (x : Nat) (l : List Nat) : List Nat :=
  if x ∈ l then l else l ++ [x]

/-- `defaultdict(set)` keyed by an optional parent fid:
`parents_to_scan[k].add(f)`. -/
def addParent (k : Option Nat) (f : Nat) :
    List (Option Nat × List Nat) → List (Option Nat × List Nat)
  | [] => [(k, [f])]
  | (k', fs) :: t => if k = k' then (k', setInsert f fs) :: t else (k', fs) :: addParent k f t

/-- Key lookup in the `parents_to_scan` map. -/
def getParent (k : Option Nat) : List (Option Nat × List Nat) → Option (List Nat)
  | [] => none
  | (k', fs) :: t => if k = k' then some fs else getParent k t

/-- The group-context variables of the detailed scan:
`parentType`, `parentFid`, `parentParentFid` in `scan_Many`. -/
structure ScanCtx where
  parentType : Option Nat
  parentFid : Option Nat
  parentParentFid : Option Nat
deriving DecidableEq

/-- The group-context update performed on a `GRUP` header in detailed mode
(`scan_Many`, the `elif detailed:` branch):
type 1 is World Children, type 2 Interior Cell Block, types 6, 8, 9, 10 are
Cell (Persistent/Temporary/VWD) Children; everything else is untouched. -/
def ctxUpd (c : ScanCtx) (gt lbl : Nat) : ScanCtx :=
  if gt = 1 then ⟨some 1, none, some lbl⟩
  else if gt = 2 then ⟨some 0, none, none⟩
  else if gt = 6 ∨ gt = 8 ∨ gt = 9 ∨ gt = 10 then ⟨c.parentType, some lbl, c.parentParentFid⟩
  else c

/-- Mutable state of pass 1 of `scan_Many` for one file: the `udr` dict,
the `parents_to_scan` map, the `fog` set and the group context. -/
structure P1State where
  udr : List (Nat × UdrInfo)
  parents : List (Option Nat × List Nat)
  fog : List Nat
  ctx : ScanCtx
deriving DecidableEq

/-- The state at the start of a file scan. -/
def initState : P1State := ⟨[], [], [], ⟨none, none, none⟩⟩

/-- The UDR classification of one leaf record header (`scan_Many`):
if requested, the deleted flag `0x20` is set and the type is allow-listed,
record a `UdrInfo` under its fid; in detailed mode also push the current
parent fids onto `parents_to_scan` (a falsy — `None` or `0` —
`parentParentFid` is not pushed). -/
def udrLeafUpd (doUDR detailed : Bool) (st : P1State) (h : RecHeader) : P1State :=
  if doUDR && (h.flags1 &&& 0x20 != 0) && udrTypes.contains h.rtype then
    if !detailed then
      { st with udr := assocSet h.fid (UdrInfo.bare h.fid) st.udr }
    else
      let st1 := { st with
        udr := assocSet h.fid
          ⟨h.fid, some h.rtype, st.ctx.parentFid, [], st.ctx.parentType, none,
            st.ctx.parentParentFid, []⟩ st.udr,
        parents := addParent st.ctx.parentFid h.fid st.parents }
      match st.ctx.parentParentFid with
      | some w =>
          if w ≠ 0 then { st1 with parents := addParent (some w) h.fid st1.parents }
          else st1
      | none => st1
  else st

/-- The subrecord walk of a `CELL` record body in pass 1 of `scan_Many`
(`while insTell() < nextRecord`): skip subrecords other than `XCLL`;
unpack an `XCLL` payload and add the cell's fid to the fog set when
`near`, `far` and `clip` are all zero. -/
def fogSub : Nat → Nat → Nat → List Nat → List Nat → Option (List Nat × List Nat)
  | _, 0, _, fog, s => some (fog, s)
  | 0, _ + 1, _, _, _ => none
  | fuel + 1, budget + 1, cellFid, fog, s =>
    match unpackSubHeader s with
    | none => none
    | some ((stype, ssize), s1) =>
      if stype ≠ tagXCLL then
        match readN ssize s1 with
        | none => none
        | some (_, s2) => fogSub fuel (budget + 1 - (6 + ssize)) cellFid fog s2
      else
        match unpackXcll ssize s1 with
        | none => none
        | some (f, s2) =>
          let fog' := if xcllAllZero f then setInsert cellFid fog else fog
          fogSub fuel (budget + 1 - (6 + ssize)) cellFid fog' s2

/-- Pass 1 of `ModCleaner.scan_Many` over one file's byte stream
(`while not insAtEnd()`): decode each 20-byte header; skip top-level
groups other than `CELL`/`WRLD` wholesale; track the group context in
detailed mode; classify leaf records for UDR; walk `CELL` bodies for FOG
when requested, otherwise skip leaf bodies.  `none` models the scan
aborting on a decode error. -/
def pass1 (doUDR doFog detailed : Bool) : Nat → P1State → List Nat → Option P1State
  | _, st, [] => some st
  | 0, _, _ :: _ => none
  | fuel' + 1, st, a :: s0 =>
        match unpackRecHeader (a :: s0) with
        | none => none
        | some (h, s1) =>
          if h.rtype = tagGRUP then
            if h.groupType = 0 ∧ h.label ≠ tagCELL ∧ h.label ≠ tagWRLD then
              match readN (h.hsize - recHeaderSize) s1 with
              | none => none
              | some (_, s2) => pass1 doUDR doFog detailed fuel' st s2
            else
              let st' := if detailed then { st with ctx := ctxUpd st.ctx h.groupType h.label } else st
              pass1 doUDR doFog detailed fuel' st' s1
          else
            let st1 := udrLeafUpd doUDR detailed st h
            if doFog ∧ h.rtype = tagCELL then
              match fogSub h.hsize h.hsize h.fid st1.fog s1 with
              | none => none
              | some (fog', s2) => pass1 doUDR doFog detailed fuel' { st1 with fog := fog' } s2
            else
              match readN h.hsize s1 with
              | none => none
              | some (_, s2) => pass1 doUDR doFog detailed fuel' st1 s2

/-- Modelled from the spec: `MreRecord.loadSubrecords` — split a record body
into `(type, payload)` subrecords (6-byte headers, declared sizes).
Compression of parent records is not modelled. -/
def parseSubs : Nat → List Nat → Option (List (Nat × List Nat))
  | _, [] => some []
  | 0, _ :: _ => none
  | fuel + 1, s =>
    match unpackSubHeader s with
    | none => none
    | some ((t, sz), s1) =>
      match readN sz s1 with
      | none => none
      | some (pay, s2) => (parseSubs fuel s2).map (fun l => (t, pay) :: l)

/-- The per-record subrecord fold of pass 2 of `scan_Many`: `eid` is the
last `EDID` payload (reset to empty for each record), `pos` the last
`XCLC` grid coordinate — a variable that survives from record to record,
failing (`struct.error`) on an `XCLC` payload shorter than 8 bytes. -/
def eidPosFold (eid : List Nat) (pos : Option (Nat × Nat)) :
    List (Nat × List Nat) → Option (List Nat × Option (Nat × Nat))
  | [] => some (eid, pos)
  | (t, pay) :: rest =>
    if t = tagEDID then eidPosFold pay pos rest
    else if t = tagXCLC then
      if 8 ≤ pay.length then
        eidPosFold eid (some (le32dec (pay.take 4), le32dec ((pay.drop 4).take 4))) rest
      else none
    else eidPosFold eid pos rest

/-- Pass 2 of `scan_Many`, applying a parent record's editor id and (for
exterior cells) grid position to the findings that referenced it; using a
never-assigned `pos` (Python `NameError`) aborts the scan. -/
def updParents (rtype : Nat) (eid : List Nat) (pos : Option (Nat × Nat)) :
    List (Nat × UdrInfo) → List Nat → Option (List (Nat × UdrInfo))
  | udr, [] => some udr
  | udr, uf :: rest =>
    if rtype = tagCELL then
      let udr1 := assocMod uf (fun u => { u with parentEid := eid }) udr
      match assocGet uf udr1 with
      | some u =>
        if u.parentType = some 1 then
          match pos with
          | none => none
          | some p => updParents rtype eid pos (assocMod uf (fun v => { v with pos := some p }) udr1) rest
        else updParents rtype eid pos udr1 rest
      | none => updParents rtype eid pos udr1 rest
    else if rtype = tagWRLD then
      updParents rtype eid pos (assocMod uf (fun u => { u with parentParentEid := eid }) udr) rest
    else updParents rtype eid pos udr rest

/-- Pass 2 of `scan_Many` (`if parents_to_scan:`): re-walk the file with the
same group skipping; fully decode the subrecords of each leaf whose fid is
in `parents_to_scan` and populate the findings that wait on it. -/
def pass2 : Nat → List (Option Nat × List Nat) → List (Nat × UdrInfo) →
    Option (Nat × Nat) → List Nat → Option (List (Nat × UdrInfo))
  | _, _, udr, _, [] => some udr
  | 0, _, _, _, _ :: _ => none
  | fuel' + 1, parents, udr, pos, a :: s0 =>
        match unpackRecHeader (a :: s0) with
        | none => none
        | some (h, s1) =>
          if h.rtype = tagGRUP then
            if h.groupType = 0 ∧ h.label ≠ tagCELL ∧ h.label ≠ tagWRLD then
              match readN (h.hsize - recHeaderSize) s1 with
              | none => none
              | some (_, s2) => pass2 fuel' parents udr pos s2
            else pass2 fuel' parents udr pos s1
          else
            match getParent (some h.fid) parents with
            | some fids =>
              match readN h.hsize s1 with
              | none => none
              | some (body, s2) =>
                match parseSubs h.hsize body with
                | none => none
                | some subs =>
                  match eidPosFold [] pos subs with
                  | none => none
                  | some (eid, pos') =>
                    match updParents h.rtype eid pos' udr fids with
                    | none => none
                    | some udr' => pass2 fuel' parents udr' pos' s2
            | none =>
              match readN h.hsize s1 with
              | none => none
              | some (_, s2) => pass2 fuel' parents udr pos s2

/-- `ModCleaner.UDR`. -/
def cUDR : Nat := 0x01
/-- `ModCleaner.ITM`. -/
def cITM : Nat := 0x02
/-- `ModCleaner.FOG`. -/
def cFOG : Nat := 0x04
/-- `ModCleaner.ALL`. -/
def cALL : Nat := cUDR ||| cITM ||| cFOG
/-- `ModCleaner.DEFAULT`. -/
def cDEFAULT : Nat := cUDR ||| cITM

/-- The inputs `scan_Many` consumes from one mod: its number of master
names and its file's bytes. -/
structure ModInfo where
  numMasters : Nat
  bytes : List Nat

/-- One populated per-file result triple `(udr.values(), itm, fog)`. -/
structure ScanTriple where
  udr : List UdrInfo
  itm : List Nat
  fog : List Nat
deriving DecidableEq

/-- The empty triple `(set(), set(), set())`. -/
def emptyTriple : ScanTriple := ⟨[], [], []⟩

/-- The body of `scan_Many`'s per-file loop: skip masterless mods; run
pass 1 and, when `parents_to_scan` is non-empty, pass 2; any decode error
degrades the file's result to the undetermined sentinel `none`
(`udr = itm = fog = None`). -/
def scanOne (what : Nat) (detailed : Bool) (m : ModInfo) : Option ScanTriple :=
  let doUDR : Bool := what &&& cUDR != 0
  let doFog : Bool := what &&& cFOG != 0
  if 0 < m.numMasters then
    match pass1 doUDR doFog detailed m.bytes.length initState m.bytes with
    | none => none
    | some st =>
      if st.parents.isEmpty then some ⟨st.udr.map Prod.snd, [], st.fog⟩
      else
        match pass2 m.bytes.length st.parents st.udr none m.bytes with
        | none => none
        | some udr' => some ⟨udr'.map Prod.snd, [], st.fog⟩
  else some ⟨[], [], []⟩

/-- `ModCleaner.scan_Many`: empty batch short-circuit; a mask selecting
neither UDR nor FOG yields empty triples without touching any file;
otherwise each file is scanned independently, in order. -/
def scan_Many (mods : List ModInfo) (what : Nat) (detailed : Bool) :
    List (Option ScanTriple) :=
  if mods.length = 0 then []
  else if what &&& (cUDR ||| cFOG) = 0 then
    List.replicate mods.length (some emptyTriple)
  else mods.map (scanOne what detailed)

/-- The `CELL` subrecord walk of `NvidiaFogFixer.fix_fog`: copy each
subrecord header (`copyPrev(6)`) and payload verbatim, except that an
`XCLL` payload is re-packed with `near` rewritten to `0.0001` when
`near`, `far` and `clip` are all zero, recording the cell's fid.
Returns `(bytes written, fids fixed, rest of the stream)`; `none` models
an uncaught decode error. -/
def fixSub : Nat → Nat → Nat → List Nat → Option (List Nat × List Nat × List Nat)
  | _, 0, _, s => some ([], [], s)
  | 0, _ + 1, _, _ => none
  | fuel + 1, budget + 1, cellFid, s =>
    match unpackSubHeader s with
    | none => none
    | some ((stype, ssize), s1) =>
      let hdr6 := s.take 6
      if stype ≠ tagXCLL then
        match readN ssize s1 with
        | none => none
        | some (pay, s2) =>
          match fixSub fuel (budget + 1 - (6 + ssize)) cellFid s2 with
          | none => none
          | some (e, fids, s3) => some (hdr6 ++ pay ++ e, fids, s3)
      else
        match unpackXcll ssize s1 with
        | none => none
        | some (f, s2) =>
          let hit := xcllAllZero f
          let near' := if hit then epsBytes else f.fogNear
          let chunk := f.color ++ near' ++ f.fogFar ++ f.rotXY ++ f.rotZ ++ f.fade ++ f.clip
          match fixSub fuel (budget + 1 - (6 + ssize)) cellFid s2 with
          | none => none
          | some (e, fids, s3) =>
            some (hdr6 ++ chunk ++ e, (if hit then cellFid :: fids else fids), s3)

/-- The main loop of `NvidiaFogFixer.fix_fog`: copy every record header
(`copyPrev`), copy skipped top-group bodies and leaf bodies verbatim, and
walk `CELL` bodies through `fixSub`.  Returns the bytes written to the
temporary file and the fids of the fixed cells. -/
def fixLoop : Nat → List Nat → Option (List Nat × List Nat)
  | _, [] => some ([], [])
  | 0, _ :: _ => none
  | fuel + 1, a :: s0 =>
    match unpackRecHeader (a :: s0) with
    | none => none
    | some (h, s1) =>
      let hdr := (a :: s0).take recHeaderSize
      if h.rtype = tagGRUP then
        if h.groupType ≠ 0 then
          match fixLoop fuel s1 with
          | none => none
          | some (out, fids) => some (hdr ++ out, fids)
        else if h.label ≠ tagCELL ∧ h.label ≠ tagWRLD then
          match readN (h.hsize - recHeaderSize) s1 with
          | none => none
          | some (body, s2) =>
            match fixLoop fuel s2 with
            | none => none
            | some (out, fids) => some (hdr ++ body ++ out, fids)
        else
          match fixLoop fuel s1 with
          | none => none
          | some (out, fids) => some (hdr ++ out, fids)
      else if h.rtype = tagCELL then
        match fixSub h.hsize h.hsize h.fid s1 with
        | none => none
        | some (e, fids, s2) =>
          match fixLoop fuel s2 with
          | none => none
          | some (out, fids') => some (hdr ++ e ++ out, fids ++ fids')
      else
        match readN h.hsize s1 with
        | none => none
        | some (body, s2) =>
          match fixLoop fuel s2 with
          | none => none
          | some (out, fids) => some (hdr ++ body ++ out, fids)

/-- `NvidiaFogFixer.fix_fog`: stream the whole file into the temporary
output, patching defective `XCLL` subrecords. -/
def fix_fog (bytes : List Nat) : Option (List Nat × List Nat) :=
  fixLoop bytes.length bytes

/-- The completion step of `fix_fog`: when at least one cell was fixed,
back up the original and replace it with the temporary file; otherwise
discard the temporary file and leave the original untouched.  Returns the
resulting file bytes and whether a backup was created. -/
def fixApply (bytes : List Nat) : Option (List Nat × Bool) :=
  match fix_fog bytes with
  | none => none
  | some (out, fids) => if fids.isEmpty then some (bytes, false) else some (out, true)

/-- Modelled from the spec: the Byte Cursor underlying `ModReader` for
`ModDetails.readFromMod` — a seekable view of a byte buffer. -/
structure Reader where
  data : List Nat
  pos : Nat
deriving DecidableEq

/-- Typed fixed-size read on the cursor; reading past the end fails. -/
def Reader.readBytes (r : Reader) (n : Nat) : Option (List Nat × Reader) :=
  if r.pos + n ≤ r.data.length then
    some ((r.data.drop r.pos).take n, ⟨r.data, r.pos + n⟩)
  else none

/-- Failure modes of `getRecordReader`: an I/O short read, a `zlib.error`,
and the `ModError` raised on a declared-size mismatch. -/
inductive RecErr where
  | readErr
  | zlibErr
  | modErr
deriving DecidableEq

/-- The compressed-body flag bit of a record's `flags1`
(`MreRecord.flags1_(flags).compressed`, bit `0x00040000` per the spec). -/
def flagCompressed : Nat := 0x00040000

/-- `ModDetails.readFromMod.getRecordReader`: an uncompressed record is
read in place up to `tell() + size`; a compressed one reads a u32 declared
decompressed size, inflates the remaining `size - 4` bytes (`zlib`
modelled as a parameter), raises `ModError` when the inflated length
differs from the declared size, and otherwise presents the inflated bytes
through a fresh cursor. -/
def getRecordReader (zlibDecompress : List Nat → Option (List Nat))
    (flags rsize : Nat) (ins : Reader) : Except RecErr (Reader × Nat) :=
  if flags &&& flagCompressed = 0 then .ok (ins, ins.pos + rsize)
  else
    match ins.readBytes 4 with
    | none => .error .readErr
    | some (szb, ins1) =>
      let sizeCheck := le32dec szb
      match ins1.readBytes (rsize - 4) with
      | none => .error .readErr
      | some (comp, _) =>
        match zlibDecompress comp with
        | none => .error .zlibErr
        | some decomp =>
          if decomp.length ≠ sizeCheck then .error .modErr
          else .ok (⟨decomp, 0⟩, sizeCheck)

/-! ### A structured model of well-formed plugin files

Scanned files are byte streams; to quantify over well-formed inputs the
theorems below build streams from a tree of records and groups and
serialize it.  The serializer follows the format description: 20-byte
headers, leaf sizes excluding the header, group sizes including it,
6-byte subrecord headers with u16 payload sizes. -/

/-- One subrecord used to build a record body. -/
structure SubRec where
  stype : Nat
  payload : List Nat
deriving DecidableEq

/-- Serialize one subrecord: 4-byte tag, little-endian u16 size, payload. -/
def serSub (sr : SubRec) : List Nat :=
  le32enc sr.stype ++ [sr.payload.length % 256, sr.payload.length / 256 % 256] ++ sr.payload

/-- Serialize a subrecord sequence. -/
def serSubs : List SubRec → List Nat
  | [] => []
  | sr :: rest => serSub sr ++ serSubs rest

/-- A leaf-record body: either opaque bytes or a subrecord sequence. -/
inductive RecBody where
  | raw (b : List Nat)
  | subs (l : List SubRec)
deriving DecidableEq

/-- The bytes of a record body. -/
def serBody : RecBody → List Nat
  | .raw b => b
  | .subs l => serSubs l

/-- A structured file element: a leaf record or a group frame. -/
inductive Element where
  | record (rtype flags fid vci : Nat) (body : RecBody)
  | grup (label gtype stamp : Nat) (children : List Element)

/-- The 20 header bytes for five 32-bit words. -/
def serHdr (a b c d e : Nat) : List Nat :=
  le32enc a ++ le32enc b ++ le32enc c ++ le32enc d ++ le32enc e

mutual

/-- Serialize one element. -/
def serE : Element → List Nat
  | .record t fl fid vci b =>
    serHdr t (serBody b).length fl fid vci ++ serBody b
  | .grup lbl gt stp cs =>
    serHdr tagGRUP (recHeaderSize + (serL cs).length) lbl gt stp ++ serL cs

/-- Serialize a forest of elements. -/
def serL : List Element → List Nat
  | [] => []
  | e :: es => serE e ++ serL es

end

/-- Well-formedness of one subrecord: tag and size encodable, and `XCLL`
payloads exactly the 36 bytes the unpacker demands. -/
def wfSubB (sr : SubRec) : Bool :=
  decide (sr.stype < 2 ^ 32) && decide (sr.payload.length < 65536) &&
    (sr.stype != tagXCLL || sr.payload.length == xcllSize)

mutual

/-- Well-formedness of an element: header words encodable, leaf types
distinct from `GRUP`, and — when the FOG detector will parse them —
`CELL` bodies given as well-formed subrecord sequences. -/
def wfE (doFog : Bool) : Element → Bool
  | .record t fl fid vci b =>
    decide (t < 2 ^ 32) && decide (fl < 2 ^ 32) && decide (fid < 2 ^ 32) &&
      decide (vci < 2 ^ 32) && (t != tagGRUP) && decide ((serBody b).length < 2 ^ 32) &&
      (match b with
       | .raw _ => !(doFog && t == tagCELL)
       | .subs l => l.all wfSubB)
  | .grup lbl gt stp cs =>
    decide (lbl < 2 ^ 32) && decide (gt < 2 ^ 32) && decide (stp < 2 ^ 32) &&
      decide (recHeaderSize + (serL cs).length < 2 ^ 32) && wfL doFog cs

/-- Well-formedness of a forest. -/
def wfL (doFog : Bool) : List Element → Bool
  | [] => true
  | e :: es => wfE doFog e && wfL doFog es

end

/-- Whether a subrecord sequence contains an `XCLL` with `near`, `far` and
`clip` all zero (the fog defect pattern). -/
def cellDefect (l : List SubRec) : Bool :=
  l.any (fun sr => sr.stype == tagXCLL && xcllAllZero (splitXcll sr.payload))

/-- The tree-level fog fold over one `CELL` body, mirroring `fogSub`. -/
def fogFoldSubs (cellFid : Nat) (fog : List Nat) : List SubRec → List Nat
  | [] => fog
  | sr :: rest =>
    if sr.stype = tagXCLL then
      fogFoldSubs cellFid
        (if xcllAllZero (splitXcll sr.payload) then setInsert cellFid fog else fog) rest
    else fogFoldSubs cellFid fog rest

mutual

/-- The tree-level denotation of one pass-1 step on an element. -/
def stepE (doUDR doFog detailed : Bool) (st : P1State) : Element → P1State
  | .record t fl fid vci b =>
    let st1 := udrLeafUpd doUDR detailed st ⟨t, (serBody b).length, fl, fid, vci⟩
    if doFog ∧ t = tagCELL then
      match b with
      | .subs l => { st1 with fog := fogFoldSubs fid st1.fog l }
      | .raw _ => st1
    else st1
  | .grup lbl gt _ cs =>
    if gt = 0 ∧ lbl ≠ tagCELL ∧ lbl ≠ tagWRLD then st
    else
      stepL doUDR doFog detailed
        (if detailed then { st with ctx := ctxUpd st.ctx gt lbl } else st) cs

/-- The tree-level denotation of pass 1 on a forest. -/
def stepL (doUDR doFog detailed : Bool) (st : P1State) : List Element → P1State
  | [] => st
  | e :: es => stepL doUDR doFog detailed (stepE doUDR doFog detailed st e) es

end

mutual

/-- The leaf-record headers the walk visits in an element (children of
skipped opaque top groups excluded, exactly as the scanner skips them). -/
def leavesE : Element → List RecHeader
  | .record t fl fid vci b => [⟨t, (serBody b).length, fl, fid, vci⟩]
  | .grup lbl gt _ cs =>
    if gt = 0 ∧ lbl ≠ tagCELL ∧ lbl ≠ tagWRLD then [] else leavesL cs

/-- The leaf-record headers the walk visits in a forest. -/
def leavesL : List Element → List RecHeader
  | [] => []
  | e :: es => leavesE e ++ leavesL es

end

mutual

/-- The fids of visited `CELL` records whose body shows the fog defect. -/
def fogFidsE : Element → List Nat
  | .record t _ fid _ b =>
    if t = tagCELL then
      match b with
      | .subs l => if cellDefect l then [fid] else []
      | .raw _ => []
    else []
  | .grup lbl gt _ cs =>
    if gt = 0 ∧ lbl ≠ tagCELL ∧ lbl ≠ tagWRLD then [] else fogFidsL cs

/-- The defective `CELL` fids of a forest. -/
def fogFidsL : List Element → List Nat
  | [] => []
  | e :: es => fogFidsE e ++ fogFidsL es

end

mutual

/-- The group-context fold over one element: entries update the context,
exits restore nothing. -/
def ctxE (c : ScanCtx) : Element → ScanCtx
  | .record _ _ _ _ _ => c
  | .grup lbl gt _ cs =>
    if gt = 0 ∧ lbl ≠ tagCELL ∧ lbl ≠ tagWRLD then c
    else ctxL (ctxUpd c gt lbl) cs

/-- The group-context fold over a forest. -/
def ctxL (c : ScanCtx) : List Element → ScanCtx
  | [] => c
  | e :: es => ctxL (ctxE c e) es

end

/-! ### Byte-primitive lemmas -/

theorem le32enc_length (x : Nat) : (le32enc x).length = 4 := rfl

theorem le32dec_enc {x : Nat} (h : x < 2 ^ 32) : le32dec (le32enc x) = x := by
  simp [le32dec, le32enc]
  omega

theorem readN_exact {n : Nat} {a : List Nat} (b : List Nat) (h : a.length = n) :
    readN n (a ++ b) = some (a, b) := by
  subst h
  simp [readN, List.take_left, List.drop_left]

theorem readN_some {n : Nat} {s t d : List Nat} (h : readN n s = some (t, d)) :
    t = s.take n ∧ d = s.drop n ∧ t.length = n ∧ s = t ++ d := by
  unfold readN at h
  by_cases hle : n ≤ s.length
  · rw [if_pos hle] at h
    simp only [Option.some.injEq, Prod.mk.injEq] at h
    obtain ⟨rfl, rfl⟩ := h
    refine ⟨rfl, rfl, ?_, (List.take_append_drop n s).symm⟩
    simp only [List.length_take]
    omega
  · rw [if_neg hle] at h
    cases h

theorem read32_enc {x : Nat} (hx : x < 2 ^ 32) (rest : List Nat) :
    read32 (le32enc x ++ rest) = some (x, rest) := by
  simp only [read32, readN_exact rest (le32enc_length x), le32dec_enc hx]

theorem read16_enc {x : Nat} (hx : x < 65536) (rest : List Nat) :
    read16 ([x % 256, x / 256 % 256] ++ rest) = some (x, rest) := by
  have h : ([x % 256, x / 256 % 256] : List Nat).length = 2 := rfl
  simp only [read16, readN_exact rest h]
  simp [List.getD]
  omega

theorem read32_parts {s : List Nat} {v : Nat} {s1 : List Nat}
    (h : read32 s = some (v, s1)) :
    ∃ c : List Nat, c.length = 4 ∧ s = c ++ s1 ∧
      ∀ X, read32 (c ++ X) = some (v, X) := by
  unfold read32 at h
  cases hr : readN 4 s with
  | none => rw [hr] at h; cases h
  | some p =>
    obtain ⟨b, rest⟩ := p
    rw [hr] at h
    simp only [Option.some.injEq, Prod.mk.injEq] at h
    obtain ⟨rfl, rfl⟩ := h
    obtain ⟨-, -, hlen, hsplit⟩ := readN_some hr
    refine ⟨b, hlen, hsplit, fun X => ?_⟩
    simp only [read32, readN_exact X hlen]

theorem read16_parts {s : List Nat} {v : Nat} {s1 : List Nat}
    (h : read16 s = some (v, s1)) :
    ∃ c : List Nat, c.length = 2 ∧ s = c ++ s1 ∧
      ∀ X, read16 (c ++ X) = some (v, X) := by
  unfold read16 at h
  cases hr : readN 2 s with
  | none => rw [hr] at h; cases h
  | some p =>
    obtain ⟨b, rest⟩ := p
    rw [hr] at h
    simp only [Option.some.injEq, Prod.mk.injEq] at h
    obtain ⟨rfl, rfl⟩ := h
    obtain ⟨-, -, hlen, hsplit⟩ := readN_some hr
    refine ⟨b, hlen, hsplit, fun X => ?_⟩
    simp only [read16, readN_exact X hlen]

theorem readN_parts {n : Nat} {s t s1 : List Nat} (h : readN n s = some (t, s1)) :
    t.length = n ∧ s = t ++ s1 ∧ ∀ X, readN n (t ++ X) = some (t, X) := by
  obtain ⟨-, -, hlen, hsplit⟩ := readN_some h
  exact ⟨hlen, hsplit, fun X => readN_exact X hlen⟩

/-! ### Header and subrecord codec lemmas -/

theorem unpackRecHeader_serHdr {a b c d e : Nat} (rest : List Nat)
    (ha : a < 2 ^ 32) (hb : b < 2 ^ 32) (hc : c < 2 ^ 32) (hd : d < 2 ^ 32)
    (he : e < 2 ^ 32) :
    unpackRecHeader (serHdr a b c d e ++ rest) = some (⟨a, b, c, d, e⟩, rest) := by
  have h : serHdr a b c d e ++ rest
      = le32enc a ++ (le32enc b ++ (le32enc c ++ (le32enc d ++ (le32enc e ++ rest)))) := by
    simp [serHdr, List.append_assoc]
  rw [h]
  simp only [unpackRecHeader, read32_enc ha, read32_enc hb, read32_enc hc,
    read32_enc hd, read32_enc he]

theorem unpackSubHeader_serSub {sr : SubRec} (rest : List Nat)
    (ht : sr.stype < 2 ^ 32) (hp : sr.payload.length < 65536) :
    unpackSubHeader (serSub sr ++ rest)
      = some ((sr.stype, sr.payload.length), sr.payload ++ rest) := by
  have h : serSub sr ++ rest = le32enc sr.stype
      ++ ([sr.payload.length % 256, sr.payload.length / 256 % 256] ++ (sr.payload ++ rest)) := by
    simp [serSub, List.append_assoc]
  rw [h]
  simp only [unpackSubHeader, read32_enc ht, read16_enc hp]

theorem xcllSize_eq : xcllSize = 36 := rfl

theorem unpackXcll_exact {pay : List Nat} (rest : List Nat) (h : pay.length = 36) :
    unpackXcll pay.length (pay ++ rest) = some (splitXcll pay, rest) := by
  simp only [unpackXcll, readN_exact rest rfl]
  simp [h, xcllSize_eq]

theorem unpackRecHeader_parts {s : List Nat} {h : RecHeader} {s1 : List Nat}
    (hp : unpackRecHeader s = some (h, s1)) :
    ∃ c : List Nat, c.length = recHeaderSize ∧ s = c ++ s1 ∧
      ∀ X, unpackRecHeader (c ++ X) = some (h, X) := by
  unfold unpackRecHeader at hp
  cases h1 : read32 s with
  | none => simp only [h1] at hp; cases hp
  | some p1 =>
    obtain ⟨t, r1⟩ := p1
    simp only [h1] at hp
    cases h2 : read32 r1 with
    | none => simp only [h2] at hp; cases hp
    | some p2 =>
      obtain ⟨sz, r2⟩ := p2
      simp only [h2] at hp
      cases h3 : read32 r2 with
      | none => simp only [h3] at hp; cases hp
      | some p3 =>
        obtain ⟨a, r3⟩ := p3
        simp only [h3] at hp
        cases h4 : read32 r3 with
        | none => simp only [h4] at hp; cases hp
        | some p4 =>
          obtain ⟨b, r4⟩ := p4
          simp only [h4] at hp
          cases h5 : read32 r4 with
          | none => simp only [h5] at hp; cases hp
          | some p5 =>
            obtain ⟨c, r5⟩ := p5
            simp only [h5] at hp
            simp only [Option.some.injEq, Prod.mk.injEq] at hp
            obtain ⟨rfl, rfl⟩ := hp
            obtain ⟨c1, hl1, he1, hr1⟩ := read32_parts h1
            obtain ⟨c2, hl2, he2, hr2⟩ := read32_parts h2
            obtain ⟨c3, hl3, he3, hr3⟩ := read32_parts h3
            obtain ⟨c4, hl4, he4, hr4⟩ := read32_parts h4
            obtain ⟨c5, hl5, he5, hr5⟩ := read32_parts h5
            refine ⟨c1 ++ (c2 ++ (c3 ++ (c4 ++ c5))), ?_, ?_, fun X => ?_⟩
            · simp [hl1, hl2, hl3, hl4, hl5, recHeaderSize]
            · rw [he1, he2, he3, he4, he5]
              simp [List.append_assoc]
            · simp only [unpackRecHeader, List.append_assoc, hr1, hr2, hr3, hr4, hr5]

theorem unpackSubHeader_parts {s : List Nat} {t sz : Nat} {s1 : List Nat}
    (hp : unpackSubHeader s = some ((t, sz), s1)) :
    ∃ c : List Nat, c.length = 6 ∧ s = c ++ s1 ∧
      ∀ X, unpackSubHeader (c ++ X) = some ((t, sz), X) := by
  unfold unpackSubHeader at hp
  cases h1 : read32 s with
  | none => simp only [h1] at hp; cases hp
  | some p1 =>
    obtain ⟨t', r1⟩ := p1
    simp only [h1] at hp
    cases h2 : read16 r1 with
    | none => simp only [h2] at hp; cases hp
    | some p2 =>
      obtain ⟨sz', r2⟩ := p2
      simp only [h2] at hp
      simp only [Option.some.injEq, Prod.mk.injEq] at hp
      obtain ⟨⟨rfl, rfl⟩, rfl⟩ := hp
      obtain ⟨c1, hl1, he1, hr1⟩ := read32_parts h1
      obtain ⟨c2, hl2, he2, hr2⟩ := read16_parts h2
      refine ⟨c1 ++ c2, ?_, ?_, fun X => ?_⟩
      · simp [hl1, hl2]
      · rw [he1, he2]
        simp [List.append_assoc]
      · simp only [unpackSubHeader, List.append_assoc, hr1, hr2]

theorem unpackXcll_parts {n : Nat} {s : List Nat} {f : XcllFields} {s1 : List Nat}
    (hp : unpackXcll n s = some (f, s1)) :
    n = xcllSize ∧ ∃ c : List Nat, c.length = 36 ∧ s = c ++ s1 ∧ f = splitXcll c ∧
      ∀ X, unpackXcll n (c ++ X) = some (f, X) := by
  unfold unpackXcll at hp
  cases h1 : readN n s with
  | none => simp only [h1] at hp; cases hp
  | some p1 =>
    obtain ⟨buf, rest⟩ := p1
    simp only [h1] at hp
    by_cases hn : n = xcllSize
    · simp only [if_pos hn] at hp
      simp only [Option.some.injEq, Prod.mk.injEq] at hp
      obtain ⟨rfl, rfl⟩ := hp
      obtain ⟨hl, he, hr⟩ := readN_parts h1
      refine ⟨hn, buf, by rw [hl, hn, xcllSize_eq], he, rfl, fun X => ?_⟩
      simp only [unpackXcll, hr X, if_pos hn]
    · simp only [if_neg hn] at hp
      cases hp

/-! ### XCLL field algebra -/

theorem splitXcll_lengths {c : List Nat} (h : c.length = 36) :
    (splitXcll c).color.length = 12 ∧ (splitXcll c).fogNear.length = 4 ∧
    (splitXcll c).fogFar.length = 4 ∧ (splitXcll c).rotXY.length = 4 ∧
    (splitXcll c).rotZ.length = 4 ∧ (splitXcll c).fade.length = 4 ∧
    (splitXcll c).clip.length = 4 := by
  simp [splitXcll, List.length_take, List.length_drop, h]

theorem splitXcll_build {c n f r1 r2 fd cl : List Nat}
    (hc : c.length = 12) (hn : n.length = 4) (hf : f.length = 4) (h1 : r1.length = 4)
    (h2 : r2.length = 4) (hfd : fd.length = 4) (hcl : cl.length = 4) :
    splitXcll (c ++ (n ++ (f ++ (r1 ++ (r2 ++ (fd ++ cl)))))) = ⟨c, n, f, r1, r2, fd, cl⟩ := by
  have e16 : c ++ (n ++ (f ++ (r1 ++ (r2 ++ (fd ++ cl)))))
      = (c ++ n) ++ (f ++ (r1 ++ (r2 ++ (fd ++ cl)))) := by simp [List.append_assoc]
  have e20 : c ++ (n ++ (f ++ (r1 ++ (r2 ++ (fd ++ cl)))))
      = ((c ++ n) ++ f) ++ (r1 ++ (r2 ++ (fd ++ cl))) := by simp [List.append_assoc]
  have e24 : c ++ (n ++ (f ++ (r1 ++ (r2 ++ (fd ++ cl)))))
      = (((c ++ n) ++ f) ++ r1) ++ (r2 ++ (fd ++ cl)) := by simp [List.append_assoc]
  have e28 : c ++ (n ++ (f ++ (r1 ++ (r2 ++ (fd ++ cl)))))
      = ((((c ++ n) ++ f) ++ r1) ++ r2) ++ (fd ++ cl) := by simp [List.append_assoc]
  have e32 : c ++ (n ++ (f ++ (r1 ++ (r2 ++ (fd ++ cl)))))
      = (((((c ++ n) ++ f) ++ r1) ++ r2) ++ fd) ++ cl := by simp [List.append_assoc]
  have l16 : (c ++ n).length = 16 := by simp [hc, hn]
  have l20 : ((c ++ n) ++ f).length = 20 := by simp [hc, hn, hf]
  have l24 : (((c ++ n) ++ f) ++ r1).length = 24 := by simp [hc, hn, hf, h1]
  have l28 : ((((c ++ n) ++ f) ++ r1) ++ r2).length = 28 := by simp [hc, hn, hf, h1, h2]
  have l32 : (((((c ++ n) ++ f) ++ r1) ++ r2) ++ fd).length = 32 := by
    simp [hc, hn, hf, h1, h2, hfd]
  simp only [splitXcll, XcllFields.mk.injEq]
  refine ⟨?_, ?_, ?_, ?_, ?_, ?_, ?_⟩
  · rw [List.take_left' hc]
  · rw [List.drop_left' hc, List.take_left' hn]
  · rw [e16, List.drop_left' l16, List.take_left' hf]
  · rw [e20, List.drop_left' l20, List.take_left' h1]
  · rw [e24, List.drop_left' l24, List.take_left' h2]
  · rw [e28, List.drop_left' l28, List.take_left' hfd]
  · rw [e32, List.drop_left' l32, ← hcl, List.take_length]

theorem splitXcll_join {b : List Nat} (hb : b.length = 36) :
    (splitXcll b).color ++ ((splitXcll b).fogNear ++ ((splitXcll b).fogFar ++
      ((splitXcll b).rotXY ++ ((splitXcll b).rotZ ++ ((splitXcll b).fade ++
        (splitXcll b).clip))))) = b := by
  have d16 : (b.drop 12).drop 4 = b.drop 16 := by rw [List.drop_drop]
  have d20 : (b.drop 16).drop 4 = b.drop 20 := by rw [List.drop_drop]
  have d24 : (b.drop 20).drop 4 = b.drop 24 := by rw [List.drop_drop]
  have d28 : (b.drop 24).drop 4 = b.drop 28 := by rw [List.drop_drop]
  have d32 : (b.drop 28).drop 4 = b.drop 32 := by rw [List.drop_drop]
  have t32 : (b.drop 32).take 4 = b.drop 32 := by
    apply List.take_of_length_le
    simp [List.length_drop, hb]
  simp only [splitXcll]
  rw [t32, ← d32, List.take_append_drop, ← d28, List.take_append_drop,
    ← d24, List.take_append_drop, ← d20, List.take_append_drop,
    ← d16, List.take_append_drop, List.take_append_drop]

/-! ### Serialization basics -/

theorem serL_nil : serL [] = [] := rfl

theorem serL_cons (e : Element) (es : List Element) :
    serL (e :: es) = serE e ++ serL es := by
  rw [serL]

theorem serL_append (xs ys : List Element) : serL (xs ++ ys) = serL xs ++ serL ys := by
  induction xs with
  | nil => simp [serL_nil]
  | cons e es ih => simp [serL_cons, ih, List.append_assoc]

theorem serHdr_length (a b c d e : Nat) : (serHdr a b c d e).length = 20 := rfl

theorem serE_record (t fl fid vci : Nat) (b : RecBody) :
    serE (.record t fl fid vci b) = serHdr t (serBody b).length fl fid vci ++ serBody b := by
  rw [serE]

theorem serE_grup (lbl gt stp : Nat) (cs : List Element) :
    serE (.grup lbl gt stp cs)
      = serHdr tagGRUP (recHeaderSize + (serL cs).length) lbl gt stp ++ serL cs := by
  rw [serE]

theorem serE_length (e : Element) : 20 ≤ (serE e).length := by
  cases e with
  | record t fl fid vci b =>
    rw [serE_record]
    simp [serHdr_length]
  | grup lbl gt stp cs =>
    rw [serE_grup]
    simp [serHdr_length]

theorem serSubs_cons (sr : SubRec) (t : List SubRec) :
    serSubs (sr :: t) = serSub sr ++ serSubs t := by
  rw [serSubs]

theorem serSub_length (sr : SubRec) : (serSub sr).length = 6 + sr.payload.length := by
  simp [serSub, le32enc]
  omega

theorem serSubs_length_ge (l : List SubRec) : l.length ≤ (serSubs l).length := by
  induction l with
  | nil => simp [serSubs]
  | cons sr t ih =>
    rw [serSubs_cons]
    simp only [List.length_cons, List.length_append, serSub_length]
    omega

theorem isEmpty_false_of_length {l : List Nat} (h : 0 < l.length) : l.isEmpty = false := by
  cases l with
  | nil => simp at h
  | cons a t => rfl

/-- Unfold one `wfSubB` into its three propositional parts. -/
theorem wfSubB_parts {sr : SubRec} (h : wfSubB sr = true) :
    sr.stype < 2 ^ 32 ∧ sr.payload.length < 65536 ∧
      (sr.stype = tagXCLL → sr.payload.length = xcllSize) := by
  simp only [wfSubB, Bool.and_eq_true, decide_eq_true_eq, Bool.or_eq_true,
    bne_iff_ne, ne_eq, beq_iff_eq] at h
  obtain ⟨⟨h1, h2⟩, h3⟩ := h
  refine ⟨h1, h2, fun hx => ?_⟩
  rcases h3 with h3 | h3
  · exact absurd hx h3
  · exact h3

/-- The byte-level `CELL` subrecord walk of pass 1 agrees with the
tree-level fog fold on a serialized well-formed subrecord sequence. -/
theorem fogSub_serSubs {l : List SubRec} (hwf : l.all wfSubB = true) :
    ∀ fuel fog rest cellFid, l.length ≤ fuel →
      fogSub fuel (serSubs l).length cellFid fog (serSubs l ++ rest)
        = some (fogFoldSubs cellFid fog l, rest) := by
  induction l with
  | nil =>
    intro fuel fog rest cellFid _
    simp [serSubs, fogSub, fogFoldSubs]
  | cons sr t ih =>
    intro fuel fog rest cellFid hfuel
    simp only [List.all_cons, Bool.and_eq_true] at hwf
    obtain ⟨hs, ht⟩ := hwf
    obtain ⟨hty, hpl, hxl⟩ := wfSubB_parts hs
    obtain ⟨f', rfl⟩ : ∃ f', fuel = f' + 1 := by
      cases fuel with
      | zero => simp at hfuel
      | succ n => exact ⟨n, rfl⟩
    have hf' : t.length ≤ f' := by
      simp only [List.length_cons] at hfuel
      omega
    have hlen : (serSubs (sr :: t)).length
        = (5 + sr.payload.length + (serSubs t).length) + 1 := by
      rw [serSubs_cons]
      simp only [List.length_append, serSub_length]
      omega
    have hstream : serSubs (sr :: t) ++ rest = serSub sr ++ (serSubs t ++ rest) := by
      rw [serSubs_cons, List.append_assoc]
    rw [hlen, hstream]
    have hsub : 5 + sr.payload.length + (serSubs t).length + 1
        - (6 + sr.payload.length) = (serSubs t).length := by omega
    by_cases hx : sr.stype = tagXCLL
    · have hp36 : sr.payload.length = 36 := by rw [hxl hx, xcllSize_eq]
      simp only [fogSub, unpackSubHeader_serSub (serSubs t ++ rest) hty hpl, hx,
        ne_eq, not_true_eq_false, if_false,
        unpackXcll_exact (serSubs t ++ rest) hp36, hsub]
      rw [fogFoldSubs, if_pos hx]
      exact ih ht f' _ rest cellFid hf'
    · simp only [fogSub, unpackSubHeader_serSub (serSubs t ++ rest) hty hpl,
        ne_eq, hx, not_false_eq_true, if_true,
        readN_exact (serSubs t ++ rest) rfl, hsub]
      rw [fogFoldSubs, if_neg hx]
      exact ih ht f' fog rest cellFid hf'

theorem ne_nil_of_length {l : List Nat} (h : 0 < l.length) : l ≠ [] := by
  intro he
  rw [he] at h
  simp at h

theorem pass1_nil (dU dF det : Bool) (fuel : Nat) (st : P1State) :
    pass1 dU dF det fuel st [] = some st := by
  cases fuel with
  | zero => rfl
  | succ f => rfl

theorem pass1_succ (dU dF det : Bool) (f' : Nat) (st : P1State) {s : List Nat}
    (hne : s ≠ []) :
    pass1 dU dF det (f' + 1) st s =
      match unpackRecHeader s with
      | none => none
      | some (h, s1) =>
        if h.rtype = tagGRUP then
          if h.groupType = 0 ∧ h.label ≠ tagCELL ∧ h.label ≠ tagWRLD then
            match readN (h.hsize - recHeaderSize) s1 with
            | none => none
            | some (_, s2) => pass1 dU dF det f' st s2
          else
            let st' := if det then { st with ctx := ctxUpd st.ctx h.groupType h.label } else st
            pass1 dU dF det f' st' s1
        else
          let st1 := udrLeafUpd dU det st h
          if dF ∧ h.rtype = tagCELL then
            match fogSub h.hsize h.hsize h.fid st1.fog s1 with
            | none => none
            | some (fog', s2) => pass1 dU dF det f' { st1 with fog := fog' } s2
          else
            match readN h.hsize s1 with
            | none => none
            | some (_, s2) => pass1 dU dF det f' st1 s2 := by
  cases s with
  | nil => exact absurd rfl hne
  | cons a s0 => rfl

theorem wfL_cons_parts {doF : Bool} {e : Element} {es : List Element}
    (h : wfL doF (e :: es) = true) : wfE doF e = true ∧ wfL doF es = true := by
  simp only [wfL, Bool.and_eq_true] at h
  exact h

theorem wfL_append_intro {doF : Bool} {xs ys : List Element}
    (hx : wfL doF xs = true) (hy : wfL doF ys = true) : wfL doF (xs ++ ys) = true := by
  induction xs with
  | nil => simpa using hy
  | cons e es ih =>
    obtain ⟨h1, h2⟩ := wfL_cons_parts hx
    simp only [List.cons_append, wfL, Bool.and_eq_true]
    exact ⟨h1, ih h2⟩

theorem wfE_record_parts {doF : Bool} {t fl fid vci : Nat} {b : RecBody}
    (h : wfE doF (.record t fl fid vci b) = true) :
    t < 2 ^ 32 ∧ fl < 2 ^ 32 ∧ fid < 2 ^ 32 ∧ vci < 2 ^ 32 ∧ t ≠ tagGRUP ∧
      (serBody b).length < 2 ^ 32 ∧
      (∀ bb, b = .raw bb → ¬(doF = true ∧ t = tagCELL)) ∧
      (∀ l, b = .subs l → l.all wfSubB = true) := by
  cases b with
  | raw bb =>
    simp only [wfE, Bool.and_eq_true, decide_eq_true_eq, bne_iff_ne, ne_eq] at h
    obtain ⟨⟨⟨⟨⟨⟨h1, h2⟩, h3⟩, h4⟩, h5⟩, h6⟩, h7⟩ := h
    refine ⟨h1, h2, h3, h4, h5, h6, ?_, ?_⟩
    · intro _ _ hcon
      obtain ⟨hd, htc⟩ := hcon
      rw [hd, htc] at h7
      simp at h7
    · intro l hl
      cases hl
  | subs l =>
    simp only [wfE, Bool.and_eq_true, decide_eq_true_eq, bne_iff_ne, ne_eq] at h
    obtain ⟨⟨⟨⟨⟨⟨h1, h2⟩, h3⟩, h4⟩, h5⟩, h6⟩, h7⟩ := h
    refine ⟨h1, h2, h3, h4, h5, h6, ?_, ?_⟩
    · intro bb hb
      cases hb
    · intro l' hl
      cases hl
      exact h7

theorem wfE_grup_parts {doF : Bool} {lbl gt stp : Nat} {cs : List Element}
    (h : wfE doF (.grup lbl gt stp cs) = true) :
    lbl < 2 ^ 32 ∧ gt < 2 ^ 32 ∧ stp < 2 ^ 32 ∧
      recHeaderSize + (serL cs).length < 2 ^ 32 ∧ wfL doF cs = true := by
  simp only [wfE, Bool.and_eq_true, decide_eq_true_eq] at h
  obtain ⟨⟨⟨⟨h1, h2⟩, h3⟩, h4⟩, h5⟩ := h
  exact ⟨h1, h2, h3, h4, h5⟩

theorem stepL_nil (dU dF det : Bool) (st : P1State) : stepL dU dF det st [] = st := by
  rw [stepL]

theorem stepL_cons (dU dF det : Bool) (st : P1State) (e : Element) (es : List Element) :
    stepL dU dF det st (e :: es) = stepL dU dF det (stepE dU dF det st e) es := by
  rw [stepL]

theorem stepL_append (dU dF det : Bool) (st : P1State) (xs ys : List Element) :
    stepL dU dF det st (xs ++ ys) = stepL dU dF det (stepL dU dF det st xs) ys := by
  induction xs generalizing st with
  | nil => simp [stepL_nil]
  | cons e es ih => simp [stepL_cons, ih]

theorem tagGRUP_lt : tagGRUP < 2 ^ 32 := by decide

/-- Pass 1 of the byte-level scanner agrees with the tree-level fold on any
serialized well-formed forest. -/
theorem pass1_serL (doU doF det : Bool) :
    ∀ n ts st fuel, (serL ts).length ≤ n → wfL doF ts = true →
      (serL ts).length ≤ fuel →
      pass1 doU doF det fuel st (serL ts) = some (stepL doU doF det st ts) := by
  intro n
  induction n using Nat.strong_induction_on with
  | _ n IH =>
    intro ts st fuel hn hwf hfuel
    cases ts with
    | nil =>
      rw [serL_nil, pass1_nil, stepL_nil]
    | cons e es =>
      obtain ⟨hwfe, hwfes⟩ := wfL_cons_parts hwf
      have hlser : 20 ≤ (serE e).length := serE_length e
      have hlen_cons : (serL (e :: es)).length = (serE e).length + (serL es).length := by
        rw [serL_cons, List.length_append]
      obtain ⟨f', rfl⟩ : ∃ f', fuel = f' + 1 := by
        cases fuel with
        | zero => rw [hlen_cons] at hfuel; omega
        | succ k => exact ⟨k, rfl⟩
      have hles_lt : (serL es).length < n := by
        rw [hlen_cons] at hn; omega
      have hles_fuel : (serL es).length ≤ f' := by
        rw [hlen_cons] at hfuel; omega
      cases e with
      | record t fl fid vci b =>
        obtain ⟨ht, hfl, hfid, hvci, htG, hblen, hraw, hsubs⟩ := wfE_record_parts hwfe
        have hstream : serL (Element.record t fl fid vci b :: es)
            = serHdr t (serBody b).length fl fid vci ++ (serBody b ++ serL es) := by
          rw [serL_cons, serE_record, List.append_assoc]
        rw [hstream]
        have hne : serHdr t (serBody b).length fl fid vci
            ++ (serBody b ++ serL es) ≠ [] := by
          apply ne_nil_of_length
          simp [serHdr_length]
        rw [pass1_succ doU doF det f' st hne]
        simp only [unpackRecHeader_serHdr (serBody b ++ serL es) ht hblen hfl hfid hvci]
        simp only [RecHeader.label, RecHeader.groupType, RecHeader.fid, RecHeader.flags1]
        rw [if_neg htG]
        by_cases hc : doF = true ∧ t = tagCELL
        · cases b with
          | raw bb => exact absurd hc (hraw bb rfl)
          | subs l =>
            rw [if_pos hc]
            simp only [serBody]
            rw [fogSub_serSubs (hsubs l rfl) _ _ _ _ (serSubs_length_ge l)]
            simp only []
            rw [IH ((serL es).length) hles_lt es _ f' le_rfl hwfes hles_fuel]
            rw [stepL_cons]
            simp [stepE, hc, serBody]
        · rw [if_neg hc]
          rw [readN_exact (serL es) rfl]
          simp only []
          rw [IH ((serL es).length) hles_lt es _ f' le_rfl hwfes hles_fuel]
          rw [stepL_cons]
          simp [stepE, hc]
      | grup lbl gt stp cs =>
        obtain ⟨hlbl, hgt, hstp, hsz, hwfcs⟩ := wfE_grup_parts hwfe
        have hstream : serL (Element.grup lbl gt stp cs :: es)
            = serHdr tagGRUP (recHeaderSize + (serL cs).length) lbl gt stp
              ++ (serL cs ++ serL es) := by
          rw [serL_cons, serE_grup, List.append_assoc]
        rw [hstream]
        have hne : serHdr tagGRUP (recHeaderSize + (serL cs).length) lbl gt stp
            ++ (serL cs ++ serL es) ≠ [] := by
          apply ne_nil_of_length
          simp [serHdr_length]
        rw [pass1_succ doU doF det f' st hne]
        simp only [unpackRecHeader_serHdr (serL cs ++ serL es) tagGRUP_lt hsz hlbl hgt hstp]
        simp only [RecHeader.label, RecHeader.groupType, RecHeader.fid, RecHeader.flags1]
        rw [if_pos trivial]
        have hlen2 : (serL (Element.grup lbl gt stp cs :: es)).length
            = 20 + (serL cs).length + (serL es).length := by
          rw [hlen_cons, serE_grup]
          simp [serHdr_length]
        by_cases hskip : gt = 0 ∧ lbl ≠ tagCELL ∧ lbl ≠ tagWRLD
        · rw [if_pos hskip]
          have hsub : recHeaderSize + (serL cs).length - recHeaderSize
              = (serL cs).length := by omega
          rw [hsub, readN_exact (serL es) rfl]
          simp only []
          rw [IH ((serL es).length) hles_lt es _ f' le_rfl hwfes hles_fuel]
          rw [stepL_cons]
          congr 2
          rw [stepE]
          rw [if_pos hskip]
        · rw [if_neg hskip]
          rw [← serL_append]
          have hcat_lt : (serL (cs ++ es)).length < n := by
            rw [serL_append, List.length_append]
            rw [hlen2] at hn
            omega
          have hcat_fuel : (serL (cs ++ es)).length ≤ f' := by
            rw [serL_append, List.length_append]
            rw [hlen2] at hfuel
            omega
          rw [IH ((serL (cs ++ es)).length) hcat_lt (cs ++ es) _ f' le_rfl
            (wfL_append_intro hwfcs hwfes) hcat_fuel]
          rw [stepL_append, stepL_cons]
          congr 2
          rw [stepE]
          rw [if_neg hskip]

/-! ### Effects of the pass-1 state updates -/

theorem setInsert_mem (f x : Nat) (l : List Nat) : f ∈ setInsert x l ↔ f = x ∨ f ∈ l := by
  by_cases hx : x ∈ l
  · simp only [setInsert, if_pos hx]
    constructor
    · exact fun h => Or.inr h
    · rintro (rfl | h)
      · exact hx
      · exact h
  · simp only [setInsert, if_neg hx, List.mem_append, List.mem_singleton]
    tauto

theorem assocSet_keys_mem (f k : Nat) (v : UdrInfo) (m : List (Nat × UdrInfo)) :
    f ∈ (assocSet k v m).map Prod.fst ↔ f = k ∨ f ∈ m.map Prod.fst := by
  induction m with
  | nil => simp [assocSet]
  | cons p t ih =>
    obtain ⟨k', v'⟩ := p
    by_cases hk : k = k'
    · subst hk
      have he : assocSet k v ((k, v') :: t) = (k, v) :: t := by
        simp [assocSet]
      rw [he]
      simp only [List.map_cons, List.mem_cons]
      tauto
    · have he : assocSet k v ((k', v') :: t) = (k', v') :: assocSet k v t := by
        simp only [assocSet]
        rw [if_neg hk]
      rw [he]
      simp only [List.map_cons, List.mem_cons, ih]
      tauto

theorem udrLeafUpd_udr_eq (dU det : Bool) (st : P1State) (h : RecHeader) :
    (udrLeafUpd dU det st h).udr
      = if dU && (h.flags1 &&& 0x20 != 0) && udrTypes.contains h.rtype then
          assocSet h.fid
            (if det then
              ⟨h.fid, some h.rtype, st.ctx.parentFid, [], st.ctx.parentType, none,
                st.ctx.parentParentFid, []⟩
             else UdrInfo.bare h.fid) st.udr
        else st.udr := by
  unfold udrLeafUpd
  by_cases hc : (dU && (h.flags1 &&& 0x20 != 0) && udrTypes.contains h.rtype) = true
  · rw [if_pos hc, if_pos hc]
    cases det with
    | false => rfl
    | true =>
      simp only [Bool.not_true, Bool.false_eq_true, if_false, if_true]
      cases st.ctx.parentParentFid with
      | none => rfl
      | some w =>
        simp only []
        by_cases hw : w ≠ 0
        · rw [if_pos hw]
        · rw [if_neg hw]
  · rw [if_neg hc, if_neg hc]

theorem udrLeafUpd_fog (dU det : Bool) (st : P1State) (h : RecHeader) :
    (udrLeafUpd dU det st h).fog = st.fog := by
  unfold udrLeafUpd
  split
  · split
    · rfl
    · split
      · split
        · rfl
        · rfl
      · rfl
  · rfl

theorem udrLeafUpd_ctx (dU det : Bool) (st : P1State) (h : RecHeader) :
    (udrLeafUpd dU det st h).ctx = st.ctx := by
  unfold udrLeafUpd
  split
  · split
    · rfl
    · split
      · split
        · rfl
        · rfl
      · rfl
  · rfl

theorem udrLeafUpd_parents_false (dU : Bool) (st : P1State) (h : RecHeader) :
    (udrLeafUpd dU false st h).parents = st.parents := by
  unfold udrLeafUpd
  split
  · rfl
  · rfl

theorem udrLeafUpd_false (det : Bool) (st : P1State) (h : RecHeader) :
    udrLeafUpd false det st h = st := by
  unfold udrLeafUpd
  simp

/-- With UDR requested, the keys of the `udr` dict after one leaf record
are the old keys, plus the record's fid exactly when the deleted flag and
allow-listed type test passes. -/
theorem udrLeafUpd_udr_mem (det : Bool) (st : P1State) (h : RecHeader) (f : Nat) :
    f ∈ (udrLeafUpd true det st h).udr.map Prod.fst ↔
      f ∈ st.udr.map Prod.fst ∨
        (h.flags1 &&& 0x20 ≠ 0 ∧ h.rtype ∈ udrTypes ∧ f = h.fid) := by
  rw [udrLeafUpd_udr_eq]
  by_cases hc : (true && (h.flags1 &&& 0x20 != 0) && udrTypes.contains h.rtype) = true
  · rw [if_pos hc]
    rw [assocSet_keys_mem]
    simp only [Bool.and_eq_true, bne_iff_ne, ne_eq, true_and] at hc
    obtain ⟨h1, h2⟩ := hc
    have h2' : h.rtype ∈ udrTypes := by simpa using h2
    tauto
  · rw [if_neg hc]
    simp only [Bool.and_eq_true, bne_iff_ne, ne_eq, true_and, not_and] at hc
    constructor
    · exact fun hf => Or.inl hf
    · rintro (hf | ⟨hflag, hty, rfl⟩)
      · exact hf
      · exact absurd (by simpa using hty) (hc hflag)

/-! ### Tree-level characterizations of the pass-1 fold -/

theorem leavesL_append (xs ys : List Element) :
    leavesL (xs ++ ys) = leavesL xs ++ leavesL ys := by
  induction xs with
  | nil => rw [leavesL]; rfl
  | cons e es ih =>
    rw [List.cons_append, leavesL, ih, leavesL, List.append_assoc]

theorem fogFidsL_append (xs ys : List Element) :
    fogFidsL (xs ++ ys) = fogFidsL xs ++ fogFidsL ys := by
  induction xs with
  | nil => rw [fogFidsL]; rfl
  | cons e es ih =>
    rw [List.cons_append, fogFidsL, ih, fogFidsL, List.append_assoc]

theorem stepE_record (dU dF det : Bool) (st : P1State) (t fl fid vci : Nat) (b : RecBody) :
    stepE dU dF det st (.record t fl fid vci b)
      = (let st1 := udrLeafUpd dU det st ⟨t, (serBody b).length, fl, fid, vci⟩
         if dF ∧ t = tagCELL then
           match b with
           | .subs l => { st1 with fog := fogFoldSubs fid st1.fog l }
           | .raw _ => st1
         else st1) := by
  simp only [stepE]

theorem stepE_grup (dU dF det : Bool) (st : P1State) (lbl gt stp : Nat) (cs : List Element) :
    stepE dU dF det st (.grup lbl gt stp cs)
      = (if gt = 0 ∧ lbl ≠ tagCELL ∧ lbl ≠ tagWRLD then st
         else stepL dU dF det
           (if det then { st with ctx := ctxUpd st.ctx gt lbl } else st) cs) := by
  simp only [stepE]

/-- With detailed mode off, pass 1 never touches `parents_to_scan`. -/
theorem stepL_parents_false (dU dF : Bool) :
    ∀ n ts st, (serL ts).length ≤ n →
      (stepL dU dF false st ts).parents = st.parents := by
  intro n
  induction n using Nat.strong_induction_on with
  | _ n IH =>
    intro ts st hn
    cases ts with
    | nil => rw [stepL_nil]
    | cons e es =>
      have hlser : 20 ≤ (serE e).length := serE_length e
      have hlen_cons : (serL (e :: es)).length = (serE e).length + (serL es).length := by
        rw [serL_cons, List.length_append]
      rw [hlen_cons] at hn
      rw [stepL_cons]
      cases e with
      | record t fl fid vci b =>
        rw [IH ((serL es).length) (by omega) es _ le_rfl]
        rw [stepE_record]
        by_cases hc : dF = true ∧ t = tagCELL
        · rw [if_pos hc]
          cases b with
          | raw bb => exact udrLeafUpd_parents_false dU st _
          | subs l =>
            simp only []
            exact udrLeafUpd_parents_false dU st _
        · rw [if_neg hc]
          exact udrLeafUpd_parents_false dU st _
      | grup lbl gt stp cs =>
        rw [IH ((serL es).length) (by omega) es _ le_rfl]
        rw [stepE_grup]
        have hcs_le : (serL cs).length ≤ n - 1 := by
          rw [serE_grup] at hn
          simp only [List.length_append, serHdr_length] at hn
          omega
        by_cases hskip : gt = 0 ∧ lbl ≠ tagCELL ∧ lbl ≠ tagWRLD
        · rw [if_pos hskip]
        · rw [if_neg hskip]
          simp only [Bool.false_eq_true, if_false]
          exact IH (n - 1) (by omega) cs st hcs_le

/-- Without the UDR detector, pass 1 never touches the `udr` dict. -/
theorem stepL_udr_false (dF det : Bool) :
    ∀ n ts st, (serL ts).length ≤ n →
      (stepL false dF det st ts).udr = st.udr := by
  intro n
  induction n using Nat.strong_induction_on with
  | _ n IH =>
    intro ts st hn
    cases ts with
    | nil => rw [stepL_nil]
    | cons e es =>
      have hlser : 20 ≤ (serE e).length := serE_length e
      have hlen_cons : (serL (e :: es)).length = (serE e).length + (serL es).length := by
        rw [serL_cons, List.length_append]
      rw [hlen_cons] at hn
      rw [stepL_cons]
      cases e with
      | record t fl fid vci b =>
        rw [IH ((serL es).length) (by omega) es _ le_rfl]
        rw [stepE_record]
        by_cases hc : dF = true ∧ t = tagCELL
        · rw [if_pos hc]
          cases b with
          | raw bb => rw [udrLeafUpd_false]
          | subs l =>
            simp only []
            rw [udrLeafUpd_false]
        · rw [if_neg hc]
          rw [udrLeafUpd_false]
      | grup lbl gt stp cs =>
        rw [IH ((serL es).length) (by omega) es _ le_rfl]
        rw [stepE_grup]
        have hcs_le : (serL cs).length ≤ n - 1 := by
          rw [serE_grup] at hn
          simp only [List.length_append, serHdr_length] at hn
          omega
        by_cases hskip : gt = 0 ∧ lbl ≠ tagCELL ∧ lbl ≠ tagWRLD
        · rw [if_pos hskip]
        · rw [if_neg hskip]
          rw [IH (n - 1) (by omega) cs _ hcs_le]
          cases det with
          | false => rfl
          | true => rfl

/-- Without the FOG detector, pass 1 never touches the fog set. -/
theorem stepL_fog_false (dU det : Bool) :
    ∀ n ts st, (serL ts).length ≤ n →
      (stepL dU false det st ts).fog = st.fog := by
  intro n
  induction n using Nat.strong_induction_on with
  | _ n IH =>
    intro ts st hn
    cases ts with
    | nil => rw [stepL_nil]
    | cons e es =>
      have hlser : 20 ≤ (serE e).length := serE_length e
      have hlen_cons : (serL (e :: es)).length = (serE e).length + (serL es).length := by
        rw [serL_cons, List.length_append]
      rw [hlen_cons] at hn
      rw [stepL_cons]
      cases e with
      | record t fl fid vci b =>
        rw [IH ((serL es).length) (by omega) es _ le_rfl]
        rw [stepE_record]
        have hc : ¬(false = true ∧ t = tagCELL) := by
          rintro ⟨h1, -⟩
          cases h1
        rw [if_neg hc]
        rw [udrLeafUpd_fog]
      | grup lbl gt stp cs =>
        rw [IH ((serL es).length) (by omega) es _ le_rfl]
        rw [stepE_grup]
        have hcs_le : (serL cs).length ≤ n - 1 := by
          rw [serE_grup] at hn
          simp only [List.length_append, serHdr_length] at hn
          omega
        by_cases hskip : gt = 0 ∧ lbl ≠ tagCELL ∧ lbl ≠ tagWRLD
        · rw [if_pos hskip]
        · rw [if_neg hskip]
          rw [IH (n - 1) (by omega) cs _ hcs_le]
          cases det with
          | false => rfl
          | true => rfl

/-- In a detailed scan the group context after a walk is the fold of the
entry updates over the group headers entered; nothing is restored on
group exit. -/
theorem stepL_ctx_true (dU dF : Bool) :
    ∀ n ts st, (serL ts).length ≤ n →
      (stepL dU dF true st ts).ctx = ctxL st.ctx ts := by
  intro n
  induction n using Nat.strong_induction_on with
  | _ n IH =>
    intro ts st hn
    cases ts with
    | nil => rw [stepL_nil, ctxL]
    | cons e es =>
      have hlser : 20 ≤ (serE e).length := serE_length e
      have hlen_cons : (serL (e :: es)).length = (serE e).length + (serL es).length := by
        rw [serL_cons, List.length_append]
      rw [hlen_cons] at hn
      rw [stepL_cons, ctxL]
      rw [IH ((serL es).length) (by omega) es _ le_rfl]
      congr 1
      cases e with
      | record t fl fid vci b =>
        rw [stepE_record, ctxE]
        by_cases hc : dF = true ∧ t = tagCELL
        · rw [if_pos hc]
          cases b with
          | raw bb => rw [udrLeafUpd_ctx]
          | subs l =>
            simp only []
            rw [udrLeafUpd_ctx]
        · rw [if_neg hc]
          rw [udrLeafUpd_ctx]
      | grup lbl gt stp cs =>
        rw [stepE_grup, ctxE]
        have hcs_le : (serL cs).length ≤ n - 1 := by
          rw [serE_grup] at hn
          simp only [List.length_append, serHdr_length] at hn
          omega
        by_cases hskip : gt = 0 ∧ lbl ≠ tagCELL ∧ lbl ≠ tagWRLD
        · rw [if_pos hskip, if_pos hskip]
        · rw [if_neg hskip, if_neg hskip]
          rw [IH (n - 1) (by omega) cs _ hcs_le]
          rfl

theorem fogFoldSubs_mem (cellFid : Nat) :
    ∀ (l : List SubRec) (fog : List Nat) (f : Nat),
      f ∈ fogFoldSubs cellFid fog l ↔
        f ∈ fog ∨ (cellDefect l = true ∧ f = cellFid) := by
  intro l
  induction l with
  | nil =>
    intro fog f
    rw [fogFoldSubs]
    simp [cellDefect]
  | cons sr t ih =>
    intro fog f
    rw [fogFoldSubs]
    have hdef : cellDefect (sr :: t)
        = ((sr.stype == tagXCLL && xcllAllZero (splitXcll sr.payload)) || cellDefect t) := by
      simp [cellDefect]
    by_cases hx : sr.stype = tagXCLL
    · rw [if_pos hx]
      by_cases hz : xcllAllZero (splitXcll sr.payload) = true
      · rw [if_pos hz, ih]
        rw [setInsert_mem]
        simp only [hdef, hx, hz, beq_self_eq_true, Bool.and_self, Bool.true_or,
          true_and, Bool.true_and]
        tauto
      · rw [if_neg hz, ih]
        simp only [hdef, hx, beq_self_eq_true, Bool.true_and]
        rw [Bool.or_eq_true]
        have hz' : xcllAllZero (splitXcll sr.payload) = false := by
          simpa using hz
        simp [hz']
    · rw [if_neg hx]
      rw [ih]
      have hb : (sr.stype == tagXCLL) = false := by
        simpa using hx
      simp only [hdef, hb, Bool.false_and, Bool.false_or]

set_option maxHeartbeats 1000000 in
/-- With the FOG detector on, a fid is in the fog set after a walk exactly
when it was there before or a visited defective `CELL` record carries it. -/
theorem stepL_fog_mem (dU det : Bool) :
    ∀ n ts st f, (serL ts).length ≤ n →
      (f ∈ (stepL dU true det st ts).fog ↔ f ∈ st.fog ∨ f ∈ fogFidsL ts) := by
  intro n
  induction n using Nat.strong_induction_on with
  | _ n IH =>
    intro ts st f hn
    cases ts with
    | nil =>
      rw [stepL_nil, fogFidsL]
      simp
    | cons e es =>
      have hlser : 20 ≤ (serE e).length := serE_length e
      have hlen_cons : (serL (e :: es)).length = (serE e).length + (serL es).length := by
        rw [serL_cons, List.length_append]
      rw [hlen_cons] at hn
      rw [stepL_cons]
      rw [IH ((serL es).length) (by omega) es _ f le_rfl]
      have hcons : fogFidsL (e :: es) = fogFidsE e ++ fogFidsL es := by
        rw [fogFidsL]
      rw [hcons]
      cases e with
      | record t fl fid vci b =>
        rw [stepE_record]
        simp only [fogFidsE, true_and]
        by_cases hc : t = tagCELL
        · rw [if_pos hc, if_pos hc]
          cases b with
          | raw bb =>
            simp only [udrLeafUpd_fog, List.mem_append, List.not_mem_nil]
            tauto
          | subs l =>
            simp only [fogFoldSubs_mem, udrLeafUpd_fog]
            by_cases hdef : cellDefect l = true
            · simp only [if_pos hdef, List.mem_append, List.mem_singleton]
              tauto
            · have hdef' : cellDefect l = false := by simpa using hdef
              simp only [hdef', Bool.false_eq_true, if_false, List.mem_append,
                List.not_mem_nil]
              tauto
        · rw [if_neg hc, if_neg hc]
          simp only [udrLeafUpd_fog, List.mem_append, List.not_mem_nil]
          tauto
      | grup lbl gt stp cs =>
        rw [stepE_grup]
        simp only [fogFidsE]
        have hcs_le : (serL cs).length ≤ n - 1 := by
          rw [serE_grup] at hn
          simp only [List.length_append, serHdr_length] at hn
          omega
        by_cases hskip : gt = 0 ∧ lbl ≠ tagCELL ∧ lbl ≠ tagWRLD
        · rw [if_pos hskip, if_pos hskip]
          simp only [List.mem_append, List.not_mem_nil]
          tauto
        · rw [if_neg hskip, if_neg hskip]
          rw [IH (n - 1) (by omega) cs _ f hcs_le]
          have hst' : (if det then { st with ctx := ctxUpd st.ctx gt lbl } else st).fog
              = st.fog := by
            cases det with
            | false => rfl
            | true => rfl
          rw [hst']
          simp only [List.mem_append]
          tauto

theorem stepE_record_udr_mem (dF det : Bool) (st : P1State)
    (t fl fid vci : Nat) (b : RecBody) (f : Nat) :
    f ∈ (stepE true dF det st (.record t fl fid vci b)).udr.map Prod.fst ↔
      f ∈ st.udr.map Prod.fst ∨ (fl &&& 0x20 ≠ 0 ∧ t ∈ udrTypes ∧ f = fid) := by
  rw [stepE_record]
  cases b with
  | raw bb =>
    by_cases hc : dF = true ∧ t = tagCELL
    · rw [if_pos hc]
      simp only []
      exact udrLeafUpd_udr_mem det st ⟨t, (serBody (.raw bb)).length, fl, fid, vci⟩ f
    · rw [if_neg hc]
      exact udrLeafUpd_udr_mem det st ⟨t, (serBody (.raw bb)).length, fl, fid, vci⟩ f
  | subs l =>
    by_cases hc : dF = true ∧ t = tagCELL
    · rw [if_pos hc]
      simp only []
      exact udrLeafUpd_udr_mem det st ⟨t, (serBody (.subs l)).length, fl, fid, vci⟩ f
    · rw [if_neg hc]
      exact udrLeafUpd_udr_mem det st ⟨t, (serBody (.subs l)).length, fl, fid, vci⟩ f

set_option maxHeartbeats 1000000 in
/-- With the UDR detector on, a fid is a key of the `udr` dict after a walk
exactly when it was one before or some visited leaf record with the
deleted flag and an allow-listed type carries it. -/
theorem stepL_udr_mem (dF det : Bool) :
    ∀ n ts st f, (serL ts).length ≤ n →
      (f ∈ (stepL true dF det st ts).udr.map Prod.fst ↔
        f ∈ st.udr.map Prod.fst ∨
          ∃ h ∈ leavesL ts, h.flags1 &&& 0x20 ≠ 0 ∧ h.rtype ∈ udrTypes ∧ h.fid = f) := by
  intro n
  induction n using Nat.strong_induction_on with
  | _ n IH =>
    intro ts st f hn
    cases ts with
    | nil =>
      rw [stepL_nil, leavesL]
      simp
    | cons e es =>
      have hlser : 20 ≤ (serE e).length := serE_length e
      have hlen_cons : (serL (e :: es)).length = (serE e).length + (serL es).length := by
        rw [serL_cons, List.length_append]
      rw [hlen_cons] at hn
      rw [stepL_cons]
      rw [IH ((serL es).length) (by omega) es _ f le_rfl]
      have hcons : leavesL (e :: es) = leavesE e ++ leavesL es := by
        rw [leavesL]
      rw [hcons]
      cases e with
      | record t fl fid vci b =>
        rw [stepE_record_udr_mem]
        simp only [leavesE, List.mem_append, List.mem_singleton]
        constructor
        · rintro ((hf | ⟨h1, h2, hff⟩) | ⟨h', hmem, hcond⟩)
          · exact Or.inl hf
          · exact Or.inr ⟨⟨t, (serBody b).length, fl, fid, vci⟩, Or.inl rfl, h1, h2, hff.symm⟩
          · exact Or.inr ⟨h', Or.inr hmem, hcond⟩
        · rintro (hf | ⟨h', hor, hcond⟩)
          · exact Or.inl (Or.inl hf)
          · rcases hor with rfl | hmem
            · exact Or.inl (Or.inr ⟨hcond.1, hcond.2.1, hcond.2.2.symm⟩)
            · exact Or.inr ⟨h', hmem, hcond⟩
      | grup lbl gt stp cs =>
        rw [stepE_grup]
        simp only [leavesE]
        have hcs_le : (serL cs).length ≤ n - 1 := by
          rw [serE_grup] at hn
          simp only [List.length_append, serHdr_length] at hn
          omega
        by_cases hskip : gt = 0 ∧ lbl ≠ tagCELL ∧ lbl ≠ tagWRLD
        · rw [if_pos hskip, if_pos hskip]
          simp only [List.mem_append, List.not_mem_nil]
          constructor
          · rintro (hf | ⟨h', hmem, hcond⟩)
            · exact Or.inl hf
            · exact Or.inr ⟨h', Or.inr hmem, hcond⟩
          · rintro (hf | ⟨h', hor, hcond⟩)
            · exact Or.inl hf
            · rcases hor with hfalse | hmem
              · simp at hfalse
              · exact Or.inr ⟨h', hmem, hcond⟩
        · rw [if_neg hskip, if_neg hskip]
          rw [IH (n - 1) (by omega) cs _ f hcs_le]
          have hst' : (if det then { st with ctx := ctxUpd st.ctx gt lbl } else st).udr
              = st.udr := by
            cases det with
            | false => rfl
            | true => rfl
          rw [hst']
          simp only [List.mem_append]
          constructor
          · rintro ((hf | ⟨h', hmem, hcond⟩) | ⟨h', hmem, hcond⟩)
            · exact Or.inl hf
            · exact Or.inr ⟨h', Or.inl hmem, hcond⟩
            · exact Or.inr ⟨h', Or.inr hmem, hcond⟩
          · rintro (hf | ⟨h', hor, hcond⟩)
            · exact Or.inl (Or.inl hf)
            · rcases hor with hmem | hmem
              · exact Or.inl (Or.inr ⟨h', hmem, hcond⟩)
              · exact Or.inr ⟨h', hmem, hcond⟩

theorem stepE_record_udr (dU dF det : Bool) (st : P1State)
    (t fl fid vci : Nat) (b : RecBody) :
    (stepE dU dF det st (.record t fl fid vci b)).udr
      = (udrLeafUpd dU det st ⟨t, (serBody b).length, fl, fid, vci⟩).udr := by
  rw [stepE_record]
  cases b with
  | raw bb =>
    by_cases hc : dF = true ∧ t = tagCELL
    · rw [if_pos hc]
    · rw [if_neg hc]
  | subs l =>
    by_cases hc : dF = true ∧ t = tagCELL
    · rw [if_pos hc]
    · rw [if_neg hc]

theorem assocSet_mem_imp {k : Nat} {v : UdrInfo} {m : List (Nat × UdrInfo)}
    {p : Nat × UdrInfo} (hp : p ∈ assocSet k v m) : p = (k, v) ∨ p ∈ m := by
  induction m with
  | nil =>
    simp only [assocSet, List.mem_singleton] at hp
    exact Or.inl hp
  | cons q t ih =>
    obtain ⟨k', v'⟩ := q
    by_cases hk : k = k'
    · subst hk
      have he : assocSet k v ((k, v') :: t) = (k, v) :: t := by
        simp [assocSet]
      rw [he] at hp
      rcases List.mem_cons.mp hp with hp | hp
      · exact Or.inl hp
      · exact Or.inr (List.mem_cons_of_mem _ hp)
    · have he : assocSet k v ((k', v') :: t) = (k', v') :: assocSet k v t := by
        simp only [assocSet]
        rw [if_neg hk]
      rw [he] at hp
      rcases List.mem_cons.mp hp with hp | hp
      · exact Or.inr (hp ▸ List.mem_cons_self _ _)
      · rcases ih hp with hp | hp
        · exact Or.inl hp
        · exact Or.inr (List.mem_cons_of_mem _ hp)

theorem udrLeafUpd_fid_inv (dU det : Bool) (st : P1State) (h : RecHeader)
    (hinv : ∀ p ∈ st.udr, (Prod.snd p).fid = p.1) :
    ∀ p ∈ (udrLeafUpd dU det st h).udr, (Prod.snd p).fid = p.1 := by
  intro p hp
  rw [udrLeafUpd_udr_eq] at hp
  by_cases hc : (dU && (h.flags1 &&& 0x20 != 0) && udrTypes.contains h.rtype) = true
  · rw [if_pos hc] at hp
    rcases assocSet_mem_imp hp with rfl | hp
    · cases det with
      | false => rfl
      | true => rfl
    · exact hinv p hp
  · rw [if_neg hc] at hp
    exact hinv p hp

/-- Every value of the `udr` dict records the fid it is keyed by. -/
theorem stepL_fid_inv (dU dF det : Bool) :
    ∀ n ts st, (serL ts).length ≤ n →
      (∀ p ∈ st.udr, (Prod.snd p).fid = p.1) →
      ∀ p ∈ (stepL dU dF det st ts).udr, (Prod.snd p).fid = p.1 := by
  intro n
  induction n using Nat.strong_induction_on with
  | _ n IH =>
    intro ts st hn hinv
    cases ts with
    | nil =>
      rw [stepL_nil]
      exact hinv
    | cons e es =>
      have hlser : 20 ≤ (serE e).length := serE_length e
      have hlen_cons : (serL (e :: es)).length = (serE e).length + (serL es).length := by
        rw [serL_cons, List.length_append]
      rw [hlen_cons] at hn
      rw [stepL_cons]
      apply IH ((serL es).length) (by omega) es _ le_rfl
      cases e with
      | record t fl fid vci b =>
        intro p hp
        rw [stepE_record_udr] at hp
        exact udrLeafUpd_fid_inv dU det st _ hinv p hp
      | grup lbl gt stp cs =>
        rw [stepE_grup]
        have hcs_le : (serL cs).length ≤ n - 1 := by
          rw [serE_grup] at hn
          simp only [List.length_append, serHdr_length] at hn
          omega
        by_cases hskip : gt = 0 ∧ lbl ≠ tagCELL ∧ lbl ≠ tagWRLD
        · rw [if_pos hskip]
          exact hinv
        · rw [if_neg hskip]
          apply IH (n - 1) (by omega) cs _ hcs_le
          cases det with
          | false => exact hinv
          | true => exact hinv

theorem udr_fids_eq_keys {m : List (Nat × UdrInfo)}
    (hinv : ∀ p ∈ m, (Prod.snd p).fid = p.1) :
    (m.map Prod.snd).map UdrInfo.fid = m.map Prod.fst := by
  induction m with
  | nil => rfl
  | cons p t ih =>
    simp only [List.map_cons, List.cons.injEq]
    constructor
    · exact hinv p (List.mem_cons_self _ _)
    · exact ih (fun q hq => hinv q (List.mem_cons_of_mem _ hq))

/-- `scan_Many`'s per-file body on a serialized well-formed forest, in
non-detailed mode: pass 1 runs to completion, `parents_to_scan` stays
empty, pass 2 is skipped, and the result is the tree-level fold. -/
theorem scanOne_serL {what : Nat} {dU dF : Bool}
    (hU : (what &&& cUDR != 0) = dU) (hF : (what &&& cFOG != 0) = dF)
    (ts : List Element) (mN : Nat) (hm : 0 < mN) (hwf : wfL dF ts = true) :
    scanOne what false ⟨mN, serL ts⟩
      = some ⟨(stepL dU dF false initState ts).udr.map Prod.snd, [],
              (stepL dU dF false initState ts).fog⟩ := by
  unfold scanOne
  simp only [hU, hF]
  rw [if_pos hm]
  rw [pass1_serL dU dF false (serL ts).length ts initState (serL ts).length le_rfl hwf le_rfl]
  simp only []
  have hpar : (stepL dU dF false initState ts).parents = [] :=
    stepL_parents_false dU dF (serL ts).length ts initState le_rfl
  rw [hpar]
  rfl

/-- C1: on a scan with the UDR detector requested, the fids of the UDR
findings are exactly the fids of the visited leaf records whose flags have
bit `0x20` set and whose type is in the fixed allow-list
`('ACRE','ACHR','REFR','NAVM','PHZD','PGRE')`; in particular a leaf of an
allow-listed type with the flag bit unset contributes no finding.  Records
inside skipped opaque top-level groups are not visited, per §4.2 of the
format description (`leavesL` collects exactly the walked leaves). -/
theorem C1_udr_detection (ts : List Element) (hwf : wfL false ts = true)
    (mN : Nat) (hm : 0 < mN) :
    ∃ tr, scanOne cUDR false ⟨mN, serL ts⟩ = some tr ∧
      ∀ f : Nat, (f ∈ tr.udr.map UdrInfo.fid ↔
        ∃ h ∈ leavesL ts, h.flags1 &&& 0x20 ≠ 0 ∧ h.rtype ∈ udrTypes ∧ h.fid = f) := by
  have hU : ((cUDR &&& cUDR != 0) : Bool) = true := by decide
  have hF : ((cUDR &&& cFOG != 0) : Bool) = false := by decide
  refine ⟨_, scanOne_serL hU hF ts mN hm hwf, fun f => ?_⟩
  have hinv := stepL_fid_inv true false false (serL ts).length ts initState le_rfl
    (by intro p hp; simp [initState] at hp)
  rw [udr_fids_eq_keys hinv]
  rw [stepL_udr_mem false false (serL ts).length ts initState f le_rfl]
  simp [initState]

/-- Witness for C1 at a file with one deleted REFR and one clean REFR. -/
theorem C1_udr_detection_witness :
    wfL false [Element.record tagREFR 0x20 0x30 0 (.raw []),
      Element.record tagREFR 0 0x31 0 (.raw [])] = true ∧
    (∃ tr, scanOne cUDR false ⟨1, serL [Element.record tagREFR 0x20 0x30 0 (.raw []),
        Element.record tagREFR 0 0x31 0 (.raw [])]⟩ = some tr ∧
      ∀ f : Nat, (f ∈ tr.udr.map UdrInfo.fid ↔
        ∃ h ∈ leavesL [Element.record tagREFR 0x20 0x30 0 (.raw []),
          Element.record tagREFR 0 0x31 0 (.raw [])],
          h.flags1 &&& 0x20 ≠ 0 ∧ h.rtype ∈ udrTypes ∧ h.fid = f)) :=
  ⟨by decide, C1_udr_detection _ (by decide) 1 (by decide)⟩

/-- C2: on a scan with the FOG detector requested, the fog finding set
holds exactly the fids of the visited `CELL` records some `XCLL`
subrecord of which has `near`, `far` and `clip` all zero; a `CELL` whose
lighting subrecord has any of the three nonzero contributes nothing. -/
theorem C2_fog_detection (ts : List Element) (hwf : wfL true ts = true)
    (mN : Nat) (hm : 0 < mN) :
    ∃ tr, scanOne cFOG false ⟨mN, serL ts⟩ = some tr ∧ tr.udr = [] ∧ tr.itm = [] ∧
      ∀ f : Nat, (f ∈ tr.fog ↔ f ∈ fogFidsL ts) := by
  have hU : ((cFOG &&& cUDR != 0) : Bool) = false := by decide
  have hF : ((cFOG &&& cFOG != 0) : Bool) = true := by decide
  refine ⟨_, scanOne_serL hU hF ts mN hm hwf, ?_, rfl, fun f => ?_⟩
  · have hudr := stepL_udr_false true false (serL ts).length ts initState le_rfl
    simp only [hudr]
    rfl
  · rw [stepL_fog_mem false false (serL ts).length ts initState f le_rfl]
    simp [initState]

/-- Witness for C2 at a file with one defective and one healthy cell. -/
theorem C2_fog_detection_witness :
    wfL true [Element.record tagCELL 0 0x77 0 (.subs [⟨tagXCLL, List.replicate 36 0⟩]),
      Element.record tagCELL 0 0x78 0 (.subs [⟨tagXCLL, 1 :: List.replicate 35 0⟩])] = true ∧
    (∃ tr, scanOne cFOG false
        ⟨1, serL [Element.record tagCELL 0 0x77 0 (.subs [⟨tagXCLL, List.replicate 36 0⟩]),
          Element.record tagCELL 0 0x78 0 (.subs [⟨tagXCLL, 1 :: List.replicate 35 0⟩])]⟩
        = some tr ∧ tr.udr = [] ∧ tr.itm = [] ∧
      ∀ f : Nat, (f ∈ tr.fog ↔
        f ∈ fogFidsL [Element.record tagCELL 0 0x77 0 (.subs [⟨tagXCLL, List.replicate 36 0⟩]),
          Element.record tagCELL 0 0x78 0 (.subs [⟨tagXCLL, 1 :: List.replicate 35 0⟩])])) :=
  ⟨by decide, C2_fog_detection _ (by decide) 1 (by decide)⟩

/-- C4 (amended): the group-context tracker reacts to group entries only;
after walking a whole serialized forest in detailed mode the context is
the plain left fold of the entry updates over the entered group headers —
nothing is restored when a group ends. -/
theorem C4_group_context_fold (dU : Bool) (ts : List Element)
    (hwf : wfL false ts = true) (st : P1State) (fuel : Nat)
    (hf : (serL ts).length ≤ fuel) :
    (pass1 dU false true fuel st (serL ts)).map P1State.ctx
      = some (ctxL st.ctx ts) := by
  rw [pass1_serL dU false true (serL ts).length ts st fuel le_rfl hwf hf]
  simp only [Option.map_some']
  rw [stepL_ctx_true dU false (serL ts).length ts st le_rfl]

/-- Witness for the amended C4. -/
theorem C4_group_context_fold_witness :
    wfL false [Element.grup 5 1 0 [Element.grup 7 6 0 []]] = true ∧
    (pass1 true false true
        (serL [Element.grup 5 1 0 [Element.grup 7 6 0 []]]).length initState
        (serL [Element.grup 5 1 0 [Element.grup 7 6 0 []]])).map P1State.ctx
      = some (ctxL initState.ctx [Element.grup 5 1 0 [Element.grup 7 6 0 []]]) :=
  ⟨by decide, C4_group_context_fold true _ (by decide) initState _ le_rfl⟩

/-- C4 (counterexample): scanning a file that is one WorldChildren group
wrapping one CellChildren group.  At end of file every group has been
exited, so the claimed stack discipline demands the initial (empty)
context back; the code instead retains `parentType = 1`,
`parentFid = 7` and `parentParentFid = 5` from the entries. -/
theorem C4_counterexample :
    (pass1 true false true
        (serL [Element.grup 5 1 0 [Element.grup 7 6 0 []]]).length initState
        (serL [Element.grup 5 1 0 [Element.grup 7 6 0 []]])).map P1State.ctx
      = some ⟨some 1, some 7, some 5⟩ ∧
    (⟨some 1, some 7, some 5⟩ : ScanCtx) ≠ initState.ctx := by
  constructor
  · decide
  · decide

/-- Every result `scan_Many`'s per-file body can produce is `none` or a
triple whose ITM component is empty. -/
theorem scanOne_shape (what : Nat) (det : Bool) (m : ModInfo) :
    scanOne what det m = none ∨
      ∃ u g, scanOne what det m = some ⟨u, [], g⟩ := by
  unfold scanOne
  split
  · simp only []
    split
    · exact Or.inl rfl
    · split
      · exact Or.inr ⟨_, _, rfl⟩
      · split
        · exact Or.inl rfl
        · exact Or.inr ⟨_, _, rfl⟩
  · exact Or.inr ⟨_, _, rfl⟩

theorem scanOne_itm {what : Nat} {det : Bool} {m : ModInfo} {tr : ScanTriple}
    (h : scanOne what det m = some tr) : tr.itm = [] := by
  rcases scanOne_shape what det m with hs | ⟨u, g, hs⟩
  · rw [hs] at h
    cases h
  · rw [hs] at h
    injection h with h'
    rw [← h']

theorem scan_Many_eq_map {mods : List ModInfo} {what : Nat} {det : Bool}
    (h : what &&& (cUDR ||| cFOG) ≠ 0) :
    scan_Many mods what det = mods.map (scanOne what det) := by
  unfold scan_Many
  by_cases hlen : mods.length = 0
  · rw [if_pos hlen]
    rw [List.length_eq_zero.mp hlen]
    rfl
  · rw [if_neg hlen, if_neg h]

/-- C3: with a mask that actually scans, `scan_Many` returns one result
per input file in order; a file whose scan aborts mid-decode yields the
`none` sentinel (`udr = itm = fog = None`) in its slot, and every other
slot is exactly what a batch without that file would produce. -/
theorem C3_batch_isolation (xs ys : List ModInfo) (fk : ModInfo) (what : Nat)
    (det : Bool) (hmask : what &&& (cUDR ||| cFOG) ≠ 0)
    (hfail : scanOne what det fk = none) :
    (scan_Many (xs ++ fk :: ys) what det).length = (xs ++ fk :: ys).length ∧
    scan_Many (xs ++ fk :: ys) what det
      = scan_Many xs what det ++ none :: scan_Many ys what det ∧
    scan_Many (xs ++ ys) what det
      = scan_Many xs what det ++ scan_Many ys what det := by
  rw [scan_Many_eq_map hmask, scan_Many_eq_map hmask, scan_Many_eq_map hmask,
    @scan_Many_eq_map (xs ++ ys) what det hmask]
  refine ⟨by simp, ?_, by simp⟩
  simp [hfail]

/-- Witness for C3: a healthy file, a file truncated mid-record, and a
masterless file, scanned with the default mask. -/
theorem C3_batch_isolation_witness :
    cDEFAULT &&& (cUDR ||| cFOG) ≠ 0 ∧
    scanOne cDEFAULT false ⟨1, [5]⟩ = none ∧
    ((scan_Many ([(⟨1, serL [Element.record tagREFR 0x20 0x30 0 (.raw [])]⟩ : ModInfo)]
          ++ (⟨1, [5]⟩ : ModInfo) :: [⟨0, []⟩]) cDEFAULT false).length
        = ([(⟨1, serL [Element.record tagREFR 0x20 0x30 0 (.raw [])]⟩ : ModInfo)]
          ++ (⟨1, [5]⟩ : ModInfo) :: [⟨0, []⟩]).length ∧
      scan_Many ([(⟨1, serL [Element.record tagREFR 0x20 0x30 0 (.raw [])]⟩ : ModInfo)]
          ++ (⟨1, [5]⟩ : ModInfo) :: [⟨0, []⟩]) cDEFAULT false
        = scan_Many [(⟨1, serL [Element.record tagREFR 0x20 0x30 0 (.raw [])]⟩ : ModInfo)] cDEFAULT false
          ++ none :: scan_Many [⟨0, []⟩] cDEFAULT false ∧
      scan_Many ([(⟨1, serL [Element.record tagREFR 0x20 0x30 0 (.raw [])]⟩ : ModInfo)] ++ [⟨0, []⟩])
          cDEFAULT false
        = scan_Many [(⟨1, serL [Element.record tagREFR 0x20 0x30 0 (.raw [])]⟩ : ModInfo)] cDEFAULT false
          ++ scan_Many [⟨0, []⟩] cDEFAULT false) :=
  ⟨by decide, by decide,
    C3_batch_isolation _ _ _ cDEFAULT false (by decide) (by decide)⟩

/-- C9: the ITM component of every populated result is empty, and a mask
selecting neither UDR nor FOG yields one empty triple per input without
reading any file (the result is the same for every file contents). -/
theorem C9_itm_always_empty (mods : List ModInfo) (what : Nat) (det : Bool) :
    (∀ r ∈ scan_Many mods what det, ∀ tr, r = some tr → tr.itm = []) ∧
    (what &&& (cUDR ||| cFOG) = 0 →
      scan_Many mods what det = List.replicate mods.length (some emptyTriple)) := by
  constructor
  · intro r hr tr hrt
    by_cases hmask : what &&& (cUDR ||| cFOG) = 0
    · unfold scan_Many at hr
      by_cases hlen : mods.length = 0
      · rw [if_pos hlen] at hr
        simp at hr
      · rw [if_neg hlen, if_pos hmask] at hr
        have hre := List.eq_of_mem_replicate hr
        rw [hre] at hrt
        injection hrt with h'
        rw [← h']
        rfl
    · rw [scan_Many_eq_map hmask] at hr
      obtain ⟨mi, -, hmi⟩ := List.mem_map.mp hr
      rw [← hmi] at hrt
      exact scanOne_itm hrt
  · intro hmask
    unfold scan_Many
    by_cases hlen : mods.length = 0
    · rw [if_pos hlen]
      simp [hlen]
    · rw [if_neg hlen, if_pos hmask]

/-- Witness for C9: the ITM-only mask returns one empty triple without
reading the (arbitrary) file bytes. -/
theorem C9_itm_always_empty_witness :
    cITM &&& (cUDR ||| cFOG) = 0 ∧
    scan_Many [⟨1, [1, 2, 3]⟩] cITM false = List.replicate 1 (some emptyTriple) :=
  ⟨by decide, (C9_itm_always_empty [⟨1, [1, 2, 3]⟩] cITM false).2 (by decide)⟩

/-- C10: a mod with no master names is never opened: its result slot is
the empty triple for every detector mask and any file contents, even one
full of deleted allow-listed records or fog-defect cells. -/
theorem C10_masterless_never_read (mods : List ModInfo) (what : Nat) (det : Bool)
    (k : Nat) (m : ModInfo) (hk : mods[k]? = some m) (hm : m.numMasters = 0) :
    (scan_Many mods what det)[k]? = some (some emptyTriple) := by
  have hlt : k < mods.length := by
    by_contra hcon
    rw [List.getElem?_eq_none (by omega)] at hk
    cases hk
  by_cases hmask : what &&& (cUDR ||| cFOG) = 0
  · unfold scan_Many
    have hlen : ¬ mods.length = 0 := by omega
    rw [if_neg hlen, if_pos hmask]
    simp [List.getElem?_replicate, hlt]
  · rw [scan_Many_eq_map hmask]
    rw [List.getElem?_map, hk]
    simp only [Option.map_some']
    have hnm : ¬ 0 < m.numMasters := by omega
    unfold scanOne
    rw [if_neg hnm]
    rfl

/-- Witness for C10: a masterless mod whose bytes hold a deleted REFR and
a fog-defect cell still yields the empty triple under the full mask. -/
theorem C10_masterless_never_read_witness :
    ([(⟨0, serL [Element.record tagREFR 0x20 0x30 0 (.raw []),
        Element.record tagCELL 0 0x77 0 (.subs [⟨tagXCLL, List.replicate 36 0⟩])]⟩ :
        ModInfo)][0]? = some ⟨0, serL [Element.record tagREFR 0x20 0x30 0 (.raw []),
        Element.record tagCELL 0 0x77 0 (.subs [⟨tagXCLL, List.replicate 36 0⟩])]⟩) ∧
    (scan_Many [⟨0, serL [Element.record tagREFR 0x20 0x30 0 (.raw []),
        Element.record tagCELL 0 0x77 0 (.subs [⟨tagXCLL, List.replicate 36 0⟩])]⟩]
        cALL false)[0]? = some (some emptyTriple) :=
  ⟨rfl, C10_masterless_never_read _ cALL false 0 _ rfl rfl⟩

/-! ### The fog fixer: round-trip and idempotence -/

theorem fixLoop_nil (fuel : Nat) : fixLoop fuel [] = some ([], []) := by
  cases fuel with
  | zero => rfl
  | succ f => rfl

theorem fixLoop_succ (f' : Nat) {s : List Nat} (hne : s ≠ []) :
    fixLoop (f' + 1) s =
      match unpackRecHeader s with
      | none => none
      | some (h, s1) =>
        let hdr := s.take recHeaderSize
        if h.rtype = tagGRUP then
          if h.groupType ≠ 0 then
            match fixLoop f' s1 with
            | none => none
            | some (out, fids) => some (hdr ++ out, fids)
          else if h.label ≠ tagCELL ∧ h.label ≠ tagWRLD then
            match readN (h.hsize - recHeaderSize) s1 with
            | none => none
            | some (body, s2) =>
              match fixLoop f' s2 with
              | none => none
              | some (out, fids) => some (hdr ++ body ++ out, fids)
          else
            match fixLoop f' s1 with
            | none => none
            | some (out, fids) => some (hdr ++ out, fids)
        else if h.rtype = tagCELL then
          match fixSub h.hsize h.hsize h.fid s1 with
          | none => none
          | some (e, fids, s2) =>
            match fixLoop f' s2 with
            | none => none
            | some (out, fids') => some (hdr ++ e ++ out, fids ++ fids')
        else
          match readN h.hsize s1 with
          | none => none
          | some (body, s2) =>
            match fixLoop f' s2 with
            | none => none
            | some (out, fids) => some (hdr ++ body ++ out, fids) := by
  cases s with
  | nil => exact absurd rfl hne
  | cons a s0 => rfl

theorem epsBytes_length : epsBytes.length = 4 := rfl

theorem epsBytes_nonzero : f32IsZero (le32dec epsBytes) = false := by decide

/-- The emitted XCLL chunk: the unpacked fields re-packed, with a
possibly replaced `near`. -/
theorem chunk_length {c near' : List Nat} (hc : c.length = 36) (hn : near'.length = 4) :
    ((splitXcll c).color ++ near' ++ (splitXcll c).fogFar ++ (splitXcll c).rotXY ++
      (splitXcll c).rotZ ++ (splitXcll c).fade ++ (splitXcll c).clip).length = 36 := by
  obtain ⟨l1, l2, l3, l4, l5, l6, l7⟩ := splitXcll_lengths hc
  simp [l1, l3, l4, l5, l6, l7, hn]

/-- Re-packing the unpacked fields unchanged reproduces the 36 payload
bytes. -/
theorem chunk_id {c : List Nat} (hc : c.length = 36) :
    (splitXcll c).color ++ (splitXcll c).fogNear ++ (splitXcll c).fogFar ++
      (splitXcll c).rotXY ++ (splitXcll c).rotZ ++ (splitXcll c).fade ++
      (splitXcll c).clip = c := by
  have hj := splitXcll_join hc
  simp only [List.append_assoc]
  simpa [List.append_assoc] using hj

/-- `chunk_id` with a continuation appended. -/
theorem chunk_id_app {c : List Nat} (hc : c.length = 36) (X : List Nat) :
    (splitXcll c).color ++ ((splitXcll c).fogNear ++ ((splitXcll c).fogFar ++
      ((splitXcll c).rotXY ++ ((splitXcll c).rotZ ++ ((splitXcll c).fade ++
      ((splitXcll c).clip ++ X)))))) = c ++ X := by
  have h1 : (splitXcll c).color ++ ((splitXcll c).fogNear ++ ((splitXcll c).fogFar ++
      ((splitXcll c).rotXY ++ ((splitXcll c).rotZ ++ ((splitXcll c).fade ++
      ((splitXcll c).clip ++ X))))))
      = ((splitXcll c).color ++ (splitXcll c).fogNear ++ (splitXcll c).fogFar ++
        (splitXcll c).rotXY ++ (splitXcll c).rotZ ++ (splitXcll c).fade ++
        (splitXcll c).clip) ++ X := by
    simp [List.append_assoc]
  rw [h1, chunk_id hc]

/-- Splitting the re-packed chunk recovers the fields. -/
theorem splitXcll_chunk {c near' : List Nat} (hc : c.length = 36) (hn : near'.length = 4) :
    splitXcll ((splitXcll c).color ++ near' ++ (splitXcll c).fogFar ++ (splitXcll c).rotXY ++
        (splitXcll c).rotZ ++ (splitXcll c).fade ++ (splitXcll c).clip)
      = ⟨(splitXcll c).color, near', (splitXcll c).fogFar, (splitXcll c).rotXY,
          (splitXcll c).rotZ, (splitXcll c).fade, (splitXcll c).clip⟩ := by
  obtain ⟨l1, l2, l3, l4, l5, l6, l7⟩ := splitXcll_lengths hc
  have hb := splitXcll_build l1 hn l3 l4 l5 l6 l7
  simpa [List.append_assoc] using hb

/-- `fixSub` writes exactly as many bytes as it consumes, and byte-for-byte
the same ones whenever it fixed nothing. -/
theorem fixSub_len :
    ∀ fuel budget cellFid s e fids r,
      fixSub fuel budget cellFid s = some (e, fids, r) →
      e.length + r.length = s.length ∧ (fids = [] → s = e ++ r) := by
  intro fuel
  induction fuel with
  | zero =>
    intro budget cellFid s e fids r h
    cases budget with
    | zero =>
      simp only [fixSub, Option.some.injEq, Prod.mk.injEq] at h
      obtain ⟨rfl, rfl, rfl⟩ := h
      simp
    | succ b => cases h
  | succ f IH =>
    intro budget cellFid s e fids r h
    cases budget with
    | zero =>
      simp only [fixSub, Option.some.injEq, Prod.mk.injEq] at h
      obtain ⟨rfl, rfl, rfl⟩ := h
      simp
    | succ b =>
      simp only [fixSub] at h
      cases h1 : unpackSubHeader s with
      | none => rw [h1] at h; cases h
      | some p =>
        obtain ⟨⟨stype, ssize⟩, s1⟩ := p
        rw [h1] at h
        simp only [] at h
        obtain ⟨c6, hl6, hsp6, -⟩ := unpackSubHeader_parts h1
        have htk : s.take 6 = c6 := by
          rw [hsp6]
          exact List.take_left' hl6
        rw [htk] at h
        by_cases hx : stype ≠ tagXCLL
        · rw [if_pos hx] at h
          cases h2 : readN ssize s1 with
          | none => rw [h2] at h; cases h
          | some q =>
            obtain ⟨pay, s2⟩ := q
            rw [h2] at h
            simp only [] at h
            obtain ⟨hlp, hspp, -⟩ := readN_parts h2
            cases h3 : fixSub f (b + 1 - (6 + ssize)) cellFid s2 with
            | none => rw [h3] at h; cases h
            | some t =>
              obtain ⟨e1, fids1, r1⟩ := t
              rw [h3] at h
              simp only [Option.some.injEq, Prod.mk.injEq] at h
              obtain ⟨rfl, rfl, rfl⟩ := h
              obtain ⟨ihl, ihe⟩ := IH _ _ _ _ _ _ h3
              constructor
              · rw [hsp6, hspp]
                simp only [List.length_append, hl6, hlp]
                omega
              · intro hf
                rw [hsp6, hspp, ihe hf]
                simp [List.append_assoc]
        · rw [if_neg hx] at h
          cases h2 : unpackXcll ssize s1 with
          | none => rw [h2] at h; cases h
          | some q =>
            obtain ⟨flds, s2⟩ := q
            rw [h2] at h
            simp only [] at h
            obtain ⟨hsz36, c36, hl36, hsp36, hflds, -⟩ := unpackXcll_parts h2
            cases h3 : fixSub f (b + 1 - (6 + ssize)) cellFid s2 with
            | none => rw [h3] at h; cases h
            | some t =>
              obtain ⟨e1, fids1, r1⟩ := t
              rw [h3] at h
              simp only [Option.some.injEq, Prod.mk.injEq] at h
              obtain ⟨rfl, rfl, rfl⟩ := h
              obtain ⟨ihl, ihe⟩ := IH _ _ _ _ _ _ h3
              have hc36 : c36.length = 36 := hl36
              obtain ⟨l1, l2, l3, l4, l5, l6', l7⟩ := splitXcll_lengths hc36
              subst hflds
              by_cases hh : xcllAllZero (splitXcll c36) = true
              · simp only [if_pos hh]
                constructor
                · rw [hsp6, hsp36]
                  simp only [List.length_append, hl6, hl36, l1, l3, l4, l5, l6', l7,
                    epsBytes_length]
                  omega
                · intro hf
                  cases hf
              · have hh' : xcllAllZero (splitXcll c36) = false := by simpa using hh
                simp only [hh', Bool.false_eq_true, if_false]
                constructor
                · rw [hsp6, hsp36]
                  simp only [List.length_append, hl6, hl36, l1, l2, l3, l4, l5, l6', l7]
                  omega
                · intro hf
                  rw [hsp6, hsp36, ihe hf]
                  simp only [List.append_assoc]
                  rw [chunk_id_app hc36]

/-- `fix_fog`'s main loop writes a file of the original length, and a
byte-for-byte copy whenever it fixed no cell. -/
theorem fixLoop_len :
    ∀ fuel s out fids, fixLoop fuel s = some (out, fids) →
      out.length = s.length ∧ (fids = [] → out = s) := by
  intro fuel
  induction fuel with
  | zero =>
    intro s out fids h
    cases s with
    | nil =>
      simp only [fixLoop_nil, Option.some.injEq, Prod.mk.injEq] at h
      obtain ⟨rfl, rfl⟩ := h
      simp
    | cons a s0 => cases h
  | succ f IH =>
    intro s out fids h
    cases s with
    | nil =>
      simp only [fixLoop_nil, Option.some.injEq, Prod.mk.injEq] at h
      obtain ⟨rfl, rfl⟩ := h
      simp
    | cons a s0 =>
      rw [fixLoop_succ f (List.cons_ne_nil a s0)] at h
      cases h1 : unpackRecHeader (a :: s0) with
      | none => rw [h1] at h; cases h
      | some p =>
        obtain ⟨hd, s1⟩ := p
        rw [h1] at h
        simp only [] at h
        obtain ⟨c20, hl20, hsp20, -⟩ := unpackRecHeader_parts h1
        have htk : (a :: s0).take recHeaderSize = c20 := by
          rw [hsp20]
          exact List.take_left' hl20
        rw [htk] at h
        by_cases hg : hd.rtype = tagGRUP
        · rw [if_pos hg] at h
          by_cases hz : hd.groupType ≠ 0
          · rw [if_pos hz] at h
            cases h3 : fixLoop f s1 with
            | none => rw [h3] at h; cases h
            | some t =>
              obtain ⟨out1, fids1⟩ := t
              rw [h3] at h
              simp only [Option.some.injEq, Prod.mk.injEq] at h
              obtain ⟨rfl, rfl⟩ := h
              obtain ⟨ihl, ihe⟩ := IH _ _ _ h3
              constructor
              · rw [hsp20]
                simp only [List.length_append, hl20, ihl]
              · intro hf
                rw [hsp20, ihe hf]
          · rw [if_neg hz] at h
            by_cases hlb : hd.label ≠ tagCELL ∧ hd.label ≠ tagWRLD
            · rw [if_pos hlb] at h
              cases h2 : readN (hd.hsize - recHeaderSize) s1 with
              | none => rw [h2] at h; cases h
              | some q =>
                obtain ⟨body, s2⟩ := q
                rw [h2] at h
                simp only [] at h
                obtain ⟨hlb2, hspb, -⟩ := readN_parts h2
                cases h3 : fixLoop f s2 with
                | none => rw [h3] at h; cases h
                | some t =>
                  obtain ⟨out1, fids1⟩ := t
                  rw [h3] at h
                  simp only [Option.some.injEq, Prod.mk.injEq] at h
                  obtain ⟨rfl, rfl⟩ := h
                  obtain ⟨ihl, ihe⟩ := IH _ _ _ h3
                  constructor
                  · rw [hsp20, hspb]
                    simp only [List.length_append, hl20, hlb2, ihl]
                    omega
                  · intro hf
                    rw [hsp20, hspb, ihe hf]
                    simp [List.append_assoc]
            · rw [if_neg hlb] at h
              cases h3 : fixLoop f s1 with
              | none => rw [h3] at h; cases h
              | some t =>
                obtain ⟨out1, fids1⟩ := t
                rw [h3] at h
                simp only [Option.some.injEq, Prod.mk.injEq] at h
                obtain ⟨rfl, rfl⟩ := h
                obtain ⟨ihl, ihe⟩ := IH _ _ _ h3
                constructor
                · rw [hsp20]
                  simp only [List.length_append, hl20, ihl]
                · intro hf
                  rw [hsp20, ihe hf]
        · rw [if_neg hg] at h
          by_cases hcell : hd.rtype = tagCELL
          · rw [if_pos hcell] at h
            cases h2 : fixSub hd.hsize hd.hsize hd.fid s1 with
            | none => rw [h2] at h; cases h
            | some q =>
              obtain ⟨e1, fids1, s2⟩ := q
              rw [h2] at h
              simp only [] at h
              cases h3 : fixLoop f s2 with
              | none => rw [h3] at h; cases h
              | some t =>
                obtain ⟨out1, fids2⟩ := t
                rw [h3] at h
                simp only [Option.some.injEq, Prod.mk.injEq] at h
                obtain ⟨rfl, rfl⟩ := h
                obtain ⟨sl, se⟩ := fixSub_len _ _ _ _ _ _ _ h2
                obtain ⟨ihl, ihe⟩ := IH _ _ _ h3
                constructor
                · rw [hsp20]
                  simp only [List.length_append, hl20]
                  omega
                · intro hf
                  rw [List.append_eq_nil] at hf
                  rw [hsp20, se hf.1, ihe hf.2]
                  simp [List.append_assoc]
          · rw [if_neg hcell] at h
            cases h2 : readN hd.hsize s1 with
            | none => rw [h2] at h; cases h
            | some q =>
              obtain ⟨body, s2⟩ := q
              rw [h2] at h
              simp only [] at h
              obtain ⟨hlb2, hspb, -⟩ := readN_parts h2
              cases h3 : fixLoop f s2 with
              | none => rw [h3] at h; cases h
              | some t =>
                obtain ⟨out1, fids1⟩ := t
                rw [h3] at h
                simp only [Option.some.injEq, Prod.mk.injEq] at h
                obtain ⟨rfl, rfl⟩ := h
                obtain ⟨ihl, ihe⟩ := IH _ _ _ h3
                constructor
                · rw [hsp20, hspb]
                  simp only [List.length_append, hl20, hlb2, ihl]
                  omega
                · intro hf
                  rw [hsp20, hspb, ihe hf]
                  simp [List.append_assoc]

/-- Re-running the `CELL` subrecord walk of the fixer over its own output
consumes exactly that output, emits it unchanged and fixes nothing. -/
theorem fixSub_idem :
    ∀ fuel budget cellFid s e fids r,
      fixSub fuel budget cellFid s = some (e, fids, r) →
      ∀ X, fixSub fuel budget cellFid (e ++ X) = some (e, [], X) := by
  intro fuel
  induction fuel with
  | zero =>
    intro budget cellFid s e fids r h X
    cases budget with
    | zero =>
      simp only [fixSub, Option.some.injEq, Prod.mk.injEq] at h
      obtain ⟨rfl, rfl, rfl⟩ := h
      simp [fixSub]
    | succ b => cases h
  | succ f IH =>
    intro budget cellFid s e fids r h X
    cases budget with
    | zero =>
      simp only [fixSub, Option.some.injEq, Prod.mk.injEq] at h
      obtain ⟨rfl, rfl, rfl⟩ := h
      simp [fixSub]
    | succ b =>
      simp only [fixSub] at h
      cases h1 : unpackSubHeader s with
      | none => rw [h1] at h; cases h
      | some p =>
        obtain ⟨⟨stype, ssize⟩, s1⟩ := p
        rw [h1] at h
        simp only [] at h
        obtain ⟨c6, hl6, hsp6, hre6⟩ := unpackSubHeader_parts h1
        have htk : s.take 6 = c6 := by
          rw [hsp6]
          exact List.take_left' hl6
        rw [htk] at h
        by_cases hx : stype ≠ tagXCLL
        · rw [if_pos hx] at h
          cases h2 : readN ssize s1 with
          | none => rw [h2] at h; cases h
          | some q =>
            obtain ⟨pay, s2⟩ := q
            rw [h2] at h
            simp only [] at h
            obtain ⟨hlp, hspp, -⟩ := readN_parts h2
            cases h3 : fixSub f (b + 1 - (6 + ssize)) cellFid s2 with
            | none => rw [h3] at h; cases h
            | some t =>
              obtain ⟨e1, fids1, r1⟩ := t
              rw [h3] at h
              simp only [Option.some.injEq, Prod.mk.injEq] at h
              obtain ⟨rfl, rfl, rfl⟩ := h
              have hstream : c6 ++ pay ++ e1 ++ X = c6 ++ (pay ++ (e1 ++ X)) := by
                simp [List.append_assoc]
              rw [hstream]
              simp only [fixSub, hre6 (pay ++ (e1 ++ X))]
              have htk2 : (c6 ++ (pay ++ (e1 ++ X))).take 6 = c6 := List.take_left' hl6
              rw [htk2, if_pos hx, readN_exact (e1 ++ X) hlp]
              simp only []
              rw [IH _ _ _ _ _ _ h3 X]
        · rw [if_neg hx] at h
          cases h2 : unpackXcll ssize s1 with
          | none => rw [h2] at h; cases h
          | some q =>
            obtain ⟨flds, s2⟩ := q
            rw [h2] at h
            simp only [] at h
            obtain ⟨hsz36, c36, hl36, hsp36, hflds, -⟩ := unpackXcll_parts h2
            cases h3 : fixSub f (b + 1 - (6 + ssize)) cellFid s2 with
            | none => rw [h3] at h; cases h
            | some t =>
              obtain ⟨e1, fids1, r1⟩ := t
              rw [h3] at h
              simp only [Option.some.injEq, Prod.mk.injEq] at h
              obtain ⟨rfl, rfl, rfl⟩ := h
              have hc36 : c36.length = 36 := hl36
              obtain ⟨l1, l2, l3, l4, l5, l6', l7⟩ := splitXcll_lengths hc36
              subst hflds
              subst hsz36
              by_cases hh : xcllAllZero (splitXcll c36) = true
              · simp only [if_pos hh]
                have hnl : (epsBytes : List Nat).length = 4 := epsBytes_length
                have hcl : ((splitXcll c36).color ++ epsBytes ++ (splitXcll c36).fogFar ++
                    (splitXcll c36).rotXY ++ (splitXcll c36).rotZ ++ (splitXcll c36).fade ++
                    (splitXcll c36).clip).length = xcllSize := by
                  rw [xcllSize_eq]
                  exact chunk_length hc36 hnl
                have hstream : c6 ++ ((splitXcll c36).color ++ epsBytes ++
                    (splitXcll c36).fogFar ++ (splitXcll c36).rotXY ++ (splitXcll c36).rotZ ++
                    (splitXcll c36).fade ++ (splitXcll c36).clip) ++ e1 ++ X
                    = c6 ++ (((splitXcll c36).color ++ epsBytes ++ (splitXcll c36).fogFar ++
                      (splitXcll c36).rotXY ++ (splitXcll c36).rotZ ++ (splitXcll c36).fade ++
                      (splitXcll c36).clip) ++ (e1 ++ X)) := by
                  simp [List.append_assoc]
                rw [hstream]
                simp only [fixSub, hre6 _]
                have htk2 : (c6 ++ (((splitXcll c36).color ++ epsBytes ++
                    (splitXcll c36).fogFar ++ (splitXcll c36).rotXY ++ (splitXcll c36).rotZ ++
                    (splitXcll c36).fade ++ (splitXcll c36).clip) ++ (e1 ++ X))).take 6 = c6 :=
                  List.take_left' hl6
                rw [htk2, if_neg hx]
                have hup2 : unpackXcll xcllSize (((splitXcll c36).color ++ epsBytes ++
                    (splitXcll c36).fogFar ++ (splitXcll c36).rotXY ++ (splitXcll c36).rotZ ++
                    (splitXcll c36).fade ++ (splitXcll c36).clip) ++ (e1 ++ X))
                    = some (splitXcll ((splitXcll c36).color ++ epsBytes ++
                        (splitXcll c36).fogFar ++ (splitXcll c36).rotXY ++ (splitXcll c36).rotZ ++
                        (splitXcll c36).fade ++ (splitXcll c36).clip), e1 ++ X) := by
                  unfold unpackXcll
                  rw [readN_exact (e1 ++ X) hcl]
                  simp only []
                  rfl
                rw [hup2]
                simp only [splitXcll_chunk hc36 hnl]
                have hz2 : xcllAllZero ⟨(splitXcll c36).color, epsBytes,
                    (splitXcll c36).fogFar, (splitXcll c36).rotXY, (splitXcll c36).rotZ,
                    (splitXcll c36).fade, (splitXcll c36).clip⟩ = false := by
                  simp [xcllAllZero, epsBytes_nonzero]
                rw [hz2]
                simp only [Bool.false_eq_true, if_false]
                rw [IH _ _ _ _ _ _ h3 X]
              · have hh' : xcllAllZero (splitXcll c36) = false := by simpa using hh
                simp only [hh', Bool.false_eq_true, if_false]
                have hcl : ((splitXcll c36).color ++ (splitXcll c36).fogNear ++
                    (splitXcll c36).fogFar ++ (splitXcll c36).rotXY ++ (splitXcll c36).rotZ ++
                    (splitXcll c36).fade ++ (splitXcll c36).clip).length = xcllSize := by
                  rw [xcllSize_eq]
                  exact chunk_length hc36 l2
                have hstream : c6 ++ ((splitXcll c36).color ++ (splitXcll c36).fogNear ++
                    (splitXcll c36).fogFar ++ (splitXcll c36).rotXY ++ (splitXcll c36).rotZ ++
                    (splitXcll c36).fade ++ (splitXcll c36).clip) ++ e1 ++ X
                    = c6 ++ (((splitXcll c36).color ++ (splitXcll c36).fogNear ++
                      (splitXcll c36).fogFar ++ (splitXcll c36).rotXY ++ (splitXcll c36).rotZ ++
                      (splitXcll c36).fade ++ (splitXcll c36).clip) ++ (e1 ++ X)) := by
                  simp [List.append_assoc]
                rw [hstream]
                simp only [fixSub, hre6 _]
                have htk2 : (c6 ++ (((splitXcll c36).color ++ (splitXcll c36).fogNear ++
                    (splitXcll c36).fogFar ++ (splitXcll c36).rotXY ++ (splitXcll c36).rotZ ++
                    (splitXcll c36).fade ++ (splitXcll c36).clip) ++ (e1 ++ X))).take 6 = c6 :=
                  List.take_left' hl6
                rw [htk2, if_neg hx]
                have hup2 : unpackXcll xcllSize (((splitXcll c36).color ++
                    (splitXcll c36).fogNear ++ (splitXcll c36).fogFar ++
                    (splitXcll c36).rotXY ++ (splitXcll c36).rotZ ++ (splitXcll c36).fade ++
                    (splitXcll c36).clip) ++ (e1 ++ X))
                    = some (splitXcll ((splitXcll c36).color ++ (splitXcll c36).fogNear ++
                        (splitXcll c36).fogFar ++ (splitXcll c36).rotXY ++ (splitXcll c36).rotZ ++
                        (splitXcll c36).fade ++ (splitXcll c36).clip), e1 ++ X) := by
                  unfold unpackXcll
                  rw [readN_exact (e1 ++ X) hcl]
                  simp only []
                  rfl
                rw [hup2]
                simp only [splitXcll_chunk hc36 l2]
                have hz2 : xcllAllZero ⟨(splitXcll c36).color, (splitXcll c36).fogNear,
                    (splitXcll c36).fogFar, (splitXcll c36).rotXY, (splitXcll c36).rotZ,
                    (splitXcll c36).fade, (splitXcll c36).clip⟩ = false := by
                  rw [← hh']
                rw [hz2]
                simp only [Bool.false_eq_true, if_false]
                rw [IH _ _ _ _ _ _ h3 X]


/-- Re-running the fixer main loop on its own output consumes the whole
output, emits it byte-for-byte unchanged and fixes nothing. -/
theorem fixLoop_idem :
    ∀ fuel s out fids, fixLoop fuel s = some (out, fids) →
      fixLoop fuel out = some (out, []) := by
  intro fuel
  induction fuel with
  | zero =>
    intro s out fids h
    cases s with
    | nil =>
      simp only [fixLoop_nil, Option.some.injEq, Prod.mk.injEq] at h
      obtain ⟨rfl, rfl⟩ := h
      exact fixLoop_nil 0
    | cons a s0 => cases h
  | succ f IH =>
    intro s out fids h
    cases s with
    | nil =>
      simp only [fixLoop_nil, Option.some.injEq, Prod.mk.injEq] at h
      obtain ⟨rfl, rfl⟩ := h
      exact fixLoop_nil (f + 1)
    | cons a s0 =>
      rw [fixLoop_succ f (List.cons_ne_nil a s0)] at h
      cases h1 : unpackRecHeader (a :: s0) with
      | none => rw [h1] at h; cases h
      | some p =>
        obtain ⟨hd, s1⟩ := p
        rw [h1] at h
        simp only [] at h
        obtain ⟨c20, hl20, hsp20, hre20⟩ := unpackRecHeader_parts h1
        have htk : (a :: s0).take recHeaderSize = c20 := by
          rw [hsp20]
          exact List.take_left' hl20
        rw [htk] at h
        have hc20ne : c20 ≠ [] := by
          intro hc
          rw [hc] at hl20
          simp [recHeaderSize] at hl20
        have happne : ∀ T : List Nat, c20 ++ T ≠ [] := by
          intro T hc
          rw [List.append_eq_nil] at hc
          exact hc20ne hc.1
        by_cases hg : hd.rtype = tagGRUP
        · rw [if_pos hg] at h
          by_cases hz : hd.groupType ≠ 0
          · rw [if_pos hz] at h
            cases h3 : fixLoop f s1 with
            | none => rw [h3] at h; cases h
            | some t =>
              obtain ⟨out1, fids1⟩ := t
              rw [h3] at h
              simp only [Option.some.injEq, Prod.mk.injEq] at h
              obtain ⟨rfl, rfl⟩ := h
              rw [fixLoop_succ f (happne out1), hre20 out1]
              simp only []
              rw [List.take_left' hl20, if_pos hg, if_pos hz, IH _ _ _ h3]
          · rw [if_neg hz] at h
            by_cases hlb : hd.label ≠ tagCELL ∧ hd.label ≠ tagWRLD
            · rw [if_pos hlb] at h
              cases h2 : readN (hd.hsize - recHeaderSize) s1 with
              | none => rw [h2] at h; cases h
              | some q =>
                obtain ⟨body, s2⟩ := q
                rw [h2] at h
                simp only [] at h
                obtain ⟨hlb2, hspb, hreb⟩ := readN_parts h2
                cases h3 : fixLoop f s2 with
                | none => rw [h3] at h; cases h
                | some t =>
                  obtain ⟨out1, fids1⟩ := t
                  rw [h3] at h
                  simp only [Option.some.injEq, Prod.mk.injEq] at h
                  obtain ⟨rfl, rfl⟩ := h
                  rw [List.append_assoc c20 body out1]
                  rw [fixLoop_succ f (happne (body ++ out1)), hre20 (body ++ out1)]
                  simp only []
                  rw [List.take_left' hl20, if_pos hg, if_neg hz, if_pos hlb]
                  rw [hreb out1]
                  simp only []
                  rw [IH _ _ _ h3]
                  simp [List.append_assoc]
            · rw [if_neg hlb] at h
              cases h3 : fixLoop f s1 with
              | none => rw [h3] at h; cases h
              | some t =>
                obtain ⟨out1, fids1⟩ := t
                rw [h3] at h
                simp only [Option.some.injEq, Prod.mk.injEq] at h
                obtain ⟨rfl, rfl⟩ := h
                rw [fixLoop_succ f (happne out1), hre20 out1]
                simp only []
                rw [List.take_left' hl20, if_pos hg, if_neg hz, if_neg hlb, IH _ _ _ h3]
        · rw [if_neg hg] at h
          by_cases hcell : hd.rtype = tagCELL
          · rw [if_pos hcell] at h
            cases h2 : fixSub hd.hsize hd.hsize hd.fid s1 with
            | none => rw [h2] at h; cases h
            | some q =>
              obtain ⟨e1, fids1, s2⟩ := q
              rw [h2] at h
              simp only [] at h
              cases h3 : fixLoop f s2 with
              | none => rw [h3] at h; cases h
              | some t =>
                obtain ⟨out1, fids2⟩ := t
                rw [h3] at h
                simp only [Option.some.injEq, Prod.mk.injEq] at h
                obtain ⟨rfl, rfl⟩ := h
                rw [List.append_assoc c20 e1 out1]
                rw [fixLoop_succ f (happne (e1 ++ out1)), hre20 (e1 ++ out1)]
                simp only []
                rw [List.take_left' hl20, if_neg hg, if_pos hcell]
                rw [fixSub_idem _ _ _ _ _ _ _ h2 out1]
                simp only []
                rw [IH _ _ _ h3]
                simp
          · rw [if_neg hcell] at h
            cases h2 : readN hd.hsize s1 with
            | none => rw [h2] at h; cases h
            | some q =>
              obtain ⟨body, s2⟩ := q
              rw [h2] at h
              simp only [] at h
              obtain ⟨hlb2, hspb, hreb⟩ := readN_parts h2
              cases h3 : fixLoop f s2 with
              | none => rw [h3] at h; cases h
              | some t =>
                obtain ⟨out1, fids1⟩ := t
                rw [h3] at h
                simp only [Option.some.injEq, Prod.mk.injEq] at h
                obtain ⟨rfl, rfl⟩ := h
                rw [List.append_assoc c20 body out1]
                rw [fixLoop_succ f (happne (body ++ out1)), hre20 (body ++ out1)]
                simp only []
                rw [List.take_left' hl20, if_neg hg, if_neg hcell]
                rw [hreb out1]
                simp only []
                rw [IH _ _ _ h3]
                simp [List.append_assoc]


/-- `cellDefect` unfolded over a cons. -/
theorem cellDefect_cons (sr : SubRec) (t : List SubRec) :
    cellDefect (sr :: t)
      = ((sr.stype == tagXCLL && xcllAllZero (splitXcll sr.payload)) || cellDefect t) := by
  simp [cellDefect]

/-- The fixer's `CELL` subrecord walk copies a serialized well-formed
subrecord sequence without the fog defect verbatim and fixes nothing. -/
theorem fixSub_serSubs_clean :
    ∀ l : List SubRec, l.all wfSubB = true → cellDefect l = false →
      ∀ fuel rest cellFid, l.length ≤ fuel →
        fixSub fuel (serSubs l).length cellFid (serSubs l ++ rest)
          = some (serSubs l, [], rest) := by
  intro l
  induction l with
  | nil =>
    intro _ _ fuel rest cellFid _
    simp [serSubs, fixSub]
  | cons sr t ih =>
    intro hwf hcd fuel rest cellFid hfuel
    simp only [List.all_cons, Bool.and_eq_true] at hwf
    obtain ⟨hs, ht⟩ := hwf
    obtain ⟨hty, hpl, hxl⟩ := wfSubB_parts hs
    rw [cellDefect_cons] at hcd
    have hhead : (sr.stype == tagXCLL && xcllAllZero (splitXcll sr.payload)) = false := by
      cases hq : (sr.stype == tagXCLL && xcllAllZero (splitXcll sr.payload)) with
      | false => rfl
      | true => rw [hq] at hcd; simp at hcd
    have htail : cellDefect t = false := by
      cases hq : cellDefect t with
      | false => rfl
      | true => rw [hq] at hcd; simp at hcd
    obtain ⟨f', rfl⟩ : ∃ f', fuel = f' + 1 := by
      cases fuel with
      | zero => simp at hfuel
      | succ n => exact ⟨n, rfl⟩
    have hf' : t.length ≤ f' := by
      simp only [List.length_cons] at hfuel
      omega
    have hlen : (serSubs (sr :: t)).length
        = (5 + sr.payload.length + (serSubs t).length) + 1 := by
      rw [serSubs_cons]
      simp only [List.length_append, serSub_length]
      omega
    have hstream : serSubs (sr :: t) ++ rest = serSub sr ++ (serSubs t ++ rest) := by
      rw [serSubs_cons, List.append_assoc]
    rw [hlen, hstream]
    have hsub : 5 + sr.payload.length + (serSubs t).length + 1
        - (6 + sr.payload.length) = (serSubs t).length := by omega
    have hc6 : (le32enc sr.stype
        ++ [sr.payload.length % 256, sr.payload.length / 256 % 256]).length = 6 := by
      simp [le32enc_length]
    have htk6 : (serSub sr ++ (serSubs t ++ rest)).take 6
        = le32enc sr.stype ++ [sr.payload.length % 256, sr.payload.length / 256 % 256] := by
      have hs2 : serSub sr ++ (serSubs t ++ rest)
          = (le32enc sr.stype ++ [sr.payload.length % 256, sr.payload.length / 256 % 256])
            ++ (sr.payload ++ (serSubs t ++ rest)) := by
        simp [serSub, List.append_assoc]
      rw [hs2]
      exact List.take_left' hc6
    by_cases hx : sr.stype = tagXCLL
    · have hp36 : sr.payload.length = 36 := by rw [hxl hx, xcllSize_eq]
      have hhit : xcllAllZero (splitXcll sr.payload) = false := by
        simpa [hx] using hhead
      simp only [fixSub, unpackSubHeader_serSub (serSubs t ++ rest) hty hpl, hx,
        ne_eq, not_true_eq_false, if_false,
        unpackXcll_exact (serSubs t ++ rest) hp36, hsub, htk6]
      rw [ih ht htail f' rest cellFid hf']
      simp only [hhit, Bool.false_eq_true, if_false]
      rw [chunk_id hp36]
      rw [serSubs_cons]
      simp [serSub, hx, List.append_assoc]
    · simp only [fixSub, unpackSubHeader_serSub (serSubs t ++ rest) hty hpl,
        ne_eq, hx, not_false_eq_true, if_true,
        readN_exact (serSubs t ++ rest) rfl, hsub, htk6]
      rw [ih ht htail f' rest cellFid hf']
      simp only []
      rw [serSubs_cons]
      simp [serSub, List.append_assoc]

/-- The fixer's main loop copies a serialized well-formed forest with no
visible fog defect verbatim and fixes nothing. -/
theorem fixLoop_serL_clean :
    ∀ n ts fuel, (serL ts).length ≤ n → wfL true ts = true →
      fogFidsL ts = [] → (serL ts).length ≤ fuel →
      fixLoop fuel (serL ts) = some (serL ts, []) := by
  intro n
  induction n using Nat.strong_induction_on with
  | _ n IH =>
    intro ts fuel hn hwf hfog hfuel
    cases ts with
    | nil =>
      rw [serL_nil]
      exact fixLoop_nil fuel
    | cons e es =>
      obtain ⟨hwfe, hwfes⟩ := wfL_cons_parts hwf
      have hfogc : fogFidsE e = [] ∧ fogFidsL es = [] := by
        have hcons : fogFidsL (e :: es) = fogFidsE e ++ fogFidsL es := by
          rw [fogFidsL]
        rw [hcons] at hfog
        exact List.append_eq_nil.mp hfog
      have hlser : 20 ≤ (serE e).length := serE_length e
      have hlen_cons : (serL (e :: es)).length = (serE e).length + (serL es).length := by
        rw [serL_cons, List.length_append]
      obtain ⟨f', rfl⟩ : ∃ f', fuel = f' + 1 := by
        cases fuel with
        | zero => rw [hlen_cons] at hfuel; omega
        | succ k => exact ⟨k, rfl⟩
      have hles_lt : (serL es).length < n := by
        rw [hlen_cons] at hn; omega
      have hles_fuel : (serL es).length ≤ f' := by
        rw [hlen_cons] at hfuel; omega
      cases e with
      | record t fl fid vci b =>
        obtain ⟨ht, hfl, hfid, hvci, htG, hblen, hraw, hsubs⟩ := wfE_record_parts hwfe
        have hstream : serL (Element.record t fl fid vci b :: es)
            = serHdr t (serBody b).length fl fid vci ++ (serBody b ++ serL es) := by
          rw [serL_cons, serE_record, List.append_assoc]
        rw [hstream]
        have hne : serHdr t (serBody b).length fl fid vci
            ++ (serBody b ++ serL es) ≠ [] := by
          apply ne_nil_of_length
          simp [serHdr_length]
        rw [fixLoop_succ f' hne]
        simp only [unpackRecHeader_serHdr (serBody b ++ serL es) ht hblen hfl hfid hvci]
        simp only [RecHeader.label, RecHeader.groupType, RecHeader.fid, RecHeader.flags1]
        have h20 : (serHdr t (serBody b).length fl fid vci).length = recHeaderSize := by
          rw [serHdr_length]
          rfl
        rw [List.take_left' h20]
        rw [if_neg htG]
        by_cases hc : t = tagCELL
        · cases b with
          | raw bb => exact absurd ⟨rfl, hc⟩ (hraw bb rfl)
          | subs l =>
            rw [if_pos hc]
            have hcd : cellDefect l = false := by
              have hfe := hfogc.1
              simp only [fogFidsE, if_pos hc] at hfe
              cases hq : cellDefect l with
              | false => rfl
              | true => rw [hq] at hfe; simp at hfe
            simp only [serBody]
            rw [fixSub_serSubs_clean l (hsubs l rfl) hcd (serSubs l).length (serL es) fid
              (serSubs_length_ge l)]
            simp only []
            rw [IH ((serL es).length) hles_lt es f' le_rfl hwfes hfogc.2 hles_fuel]
            simp [List.append_assoc]
        · rw [if_neg hc]
          rw [readN_exact (serL es) rfl]
          simp only []
          rw [IH ((serL es).length) hles_lt es f' le_rfl hwfes hfogc.2 hles_fuel]
          simp [List.append_assoc]
      | grup lbl gt stp cs =>
        obtain ⟨hlbl, hgt, hstp, hsz, hwfcs⟩ := wfE_grup_parts hwfe
        have hstream : serL (Element.grup lbl gt stp cs :: es)
            = serHdr tagGRUP (recHeaderSize + (serL cs).length) lbl gt stp
              ++ (serL cs ++ serL es) := by
          rw [serL_cons, serE_grup, List.append_assoc]
        rw [hstream]
        have hne : serHdr tagGRUP (recHeaderSize + (serL cs).length) lbl gt stp
            ++ (serL cs ++ serL es) ≠ [] := by
          apply ne_nil_of_length
          simp [serHdr_length]
        rw [fixLoop_succ f' hne]
        simp only [unpackRecHeader_serHdr (serL cs ++ serL es) tagGRUP_lt hsz hlbl hgt hstp]
        simp only [RecHeader.label, RecHeader.groupType, RecHeader.fid, RecHeader.flags1]
        have h20 : (serHdr tagGRUP (recHeaderSize + (serL cs).length) lbl gt stp).length
            = recHeaderSize := by
          rw [serHdr_length]
          rfl
        rw [List.take_left' h20]
        rw [if_pos trivial]
        have hlen2 : (serL (Element.grup lbl gt stp cs :: es)).length
            = 20 + (serL cs).length + (serL es).length := by
          rw [hlen_cons, serE_grup]
          simp [serHdr_length]
        by_cases hgt0 : gt ≠ 0
        · rw [if_pos hgt0]
          have hfogcs : fogFidsL cs = [] := by
            have hfe := hfogc.1
            simp only [fogFidsE] at hfe
            rw [if_neg (fun hcon => hgt0 hcon.1)] at hfe
            exact hfe
          rw [← serL_append]
          have hcat_lt : (serL (cs ++ es)).length < n := by
            rw [serL_append, List.length_append]
            rw [hlen2] at hn
            omega
          have hcat_fuel : (serL (cs ++ es)).length ≤ f' := by
            rw [serL_append, List.length_append]
            rw [hlen2] at hfuel
            omega
          have hfogcat : fogFidsL (cs ++ es) = [] := by
            rw [fogFidsL_append, hfogcs, hfogc.2]
            rfl
          rw [IH ((serL (cs ++ es)).length) hcat_lt (cs ++ es) f' le_rfl
            (wfL_append_intro hwfcs hwfes) hfogcat hcat_fuel]
        · rw [if_neg hgt0]
          by_cases hlb : lbl ≠ tagCELL ∧ lbl ≠ tagWRLD
          · rw [if_pos hlb]
            have hsub : recHeaderSize + (serL cs).length - recHeaderSize
                = (serL cs).length := by omega
            rw [hsub, readN_exact (serL es) rfl]
            simp only []
            rw [IH ((serL es).length) hles_lt es f' le_rfl hwfes hfogc.2 hles_fuel]
            simp [List.append_assoc]
          · rw [if_neg hlb]
            have hgt0' : gt = 0 := by omega
            have hfogcs : fogFidsL cs = [] := by
              have hfe := hfogc.1
              simp only [fogFidsE] at hfe
              rw [if_neg (fun hcon => hlb hcon.2)] at hfe
              exact hfe
            rw [← serL_append]
            have hcat_lt : (serL (cs ++ es)).length < n := by
              rw [serL_append, List.length_append]
              rw [hlen2] at hn
              omega
            have hcat_fuel : (serL (cs ++ es)).length ≤ f' := by
              rw [serL_append, List.length_append]
              rw [hlen2] at hfuel
              omega
            have hfogcat : fogFidsL (cs ++ es) = [] := by
              rw [fogFidsL_append, hfogcs, hfogc.2]
              rfl
            rw [IH ((serL (cs ++ es)).length) hcat_lt (cs ++ es) f' le_rfl
              (wfL_append_intro hwfcs hwfes) hfogcat hcat_fuel]


/-- C5: the Nvidia Fog Fixer applied to a well-formed file containing no
fog-defective `CELL` record streams the file through unchanged — the
rewritten bytes equal the original bytes, no cell is recorded as fixed,
and the completion step keeps the original file and creates no backup. -/
theorem C5_fixer_clean_roundtrip (ts : List Element)
    (hwf : wfL true ts = true) (hclean : fogFidsL ts = []) :
    fix_fog (serL ts) = some (serL ts, []) ∧
      fixApply (serL ts) = some (serL ts, false) := by
  have h : fix_fog (serL ts) = some (serL ts, []) :=
    fixLoop_serL_clean (serL ts).length ts (serL ts).length le_rfl hwf hclean le_rfl
  refine ⟨h, ?_⟩
  unfold fixApply
  rw [h]
  rfl

/-- Witness for C5: a file with one clean `CELL` (near fog nonzero). -/
theorem C5_fixer_clean_roundtrip_witness :
    wfL true [Element.record tagCELL 0 7 0
        (.subs [⟨tagXCLL, List.replicate 12 0 ++ 1 :: List.replicate 23 0⟩])] = true ∧
    fogFidsL [Element.record tagCELL 0 7 0
        (.subs [⟨tagXCLL, List.replicate 12 0 ++ 1 :: List.replicate 23 0⟩])] = [] ∧
    (fix_fog (serL [Element.record tagCELL 0 7 0
        (.subs [⟨tagXCLL, List.replicate 12 0 ++ 1 :: List.replicate 23 0⟩])])
      = some (serL [Element.record tagCELL 0 7 0
          (.subs [⟨tagXCLL, List.replicate 12 0 ++ 1 :: List.replicate 23 0⟩])], []) ∧
     fixApply (serL [Element.record tagCELL 0 7 0
        (.subs [⟨tagXCLL, List.replicate 12 0 ++ 1 :: List.replicate 23 0⟩])])
      = some (serL [Element.record tagCELL 0 7 0
          (.subs [⟨tagXCLL, List.replicate 12 0 ++ 1 :: List.replicate 23 0⟩])], false)) :=
  ⟨by decide, by decide,
    C5_fixer_clean_roundtrip
      [Element.record tagCELL 0 7 0
        (.subs [⟨tagXCLL, List.replicate 12 0 ++ 1 :: List.replicate 23 0⟩])]
      (by decide) (by decide)⟩

/-- C6: the Nvidia Fog Fixer is idempotent — whatever bytes one run
produced, a second run on that output streams it through unchanged, finds
zero defects, and its completion step keeps the file and creates no
backup. -/
theorem C6_fixer_idempotent (bytes out fids : List Nat)
    (h : fix_fog bytes = some (out, fids)) :
    fix_fog out = some (out, []) ∧ fixApply out = some (out, false) := by
  have hlen : out.length = bytes.length := (fixLoop_len _ _ _ _ h).1
  have hid : fixLoop bytes.length out = some (out, []) := fixLoop_idem _ _ _ _ h
  have h2 : fix_fog out = some (out, []) := by
    unfold fix_fog
    rw [hlen]
    exact hid
  refine ⟨h2, ?_⟩
  unfold fixApply
  rw [h2]
  rfl

/-- Witness for C6: one defective `CELL`; the first run rewrites its near
fog to the 0.0001 bit pattern and reports its fid. -/
theorem C6_fixer_idempotent_witness :
    fix_fog (serL [Element.record tagCELL 0 7 0
        (.subs [⟨tagXCLL, List.replicate 36 0⟩])])
      = some (serL [Element.record tagCELL 0 7 0
          (.subs [⟨tagXCLL, List.replicate 12 0 ++ epsBytes ++ List.replicate 20 0⟩])],
          [7]) ∧
    (fix_fog (serL [Element.record tagCELL 0 7 0
        (.subs [⟨tagXCLL, List.replicate 12 0 ++ epsBytes ++ List.replicate 20 0⟩])])
      = some (serL [Element.record tagCELL 0 7 0
          (.subs [⟨tagXCLL, List.replicate 12 0 ++ epsBytes ++ List.replicate 20 0⟩])], []) ∧
     fixApply (serL [Element.record tagCELL 0 7 0
        (.subs [⟨tagXCLL, List.replicate 12 0 ++ epsBytes ++ List.replicate 20 0⟩])])
      = some (serL [Element.record tagCELL 0 7 0
          (.subs [⟨tagXCLL, List.replicate 12 0 ++ epsBytes ++ List.replicate 20 0⟩])],
          false)) :=
  ⟨by decide,
    C6_fixer_idempotent
      (serL [Element.record tagCELL 0 7 0 (.subs [⟨tagXCLL, List.replicate 36 0⟩])])
      (serL [Element.record tagCELL 0 7 0
        (.subs [⟨tagXCLL, List.replicate 12 0 ++ epsBytes ++ List.replicate 20 0⟩])])
      [7] (by decide)⟩


/-- C7: for a compressed-flagged record, `getRecordReader` reads the
little-endian u32 declared decompressed size, inflates the remaining
`size - 4` body bytes, raises `ModError` exactly when the inflated length
differs from the declared size, and on a match hands back the inflated
bytes behind a fresh cursor at position 0 together with the declared
size. -/
theorem C7_compressed_size_check (zlib : List Nat → Option (List Nat))
    (flags rsize : Nat) (ins : Reader) (szb comp d : List Nat) (ins1 ins2 : Reader)
    (hc : flags &&& flagCompressed ≠ 0)
    (h1 : ins.readBytes 4 = some (szb, ins1))
    (h2 : ins1.readBytes (rsize - 4) = some (comp, ins2))
    (hz : zlib comp = some d) :
    (getRecordReader zlib flags rsize ins = .error .modErr ↔ d.length ≠ le32dec szb) ∧
      (d.length = le32dec szb →
        getRecordReader zlib flags rsize ins = .ok (⟨d, 0⟩, le32dec szb)) := by
  unfold getRecordReader
  rw [if_neg hc]
  simp only [h1, h2, hz]
  constructor
  · by_cases hd : d.length ≠ le32dec szb
    · rw [if_pos hd]
      exact ⟨fun _ => hd, fun _ => rfl⟩
    · rw [if_neg hd]
      constructor
      · intro he
        cases he
      · intro hne
        exact absurd hne hd
  · intro heq
    rw [if_neg (fun hcon => hcon heq)]

/-- Witness for C7: an identity decompressor, declared size 2 matching
the two inflated bytes. -/
theorem C7_compressed_size_check_witness :
    (flagCompressed &&& flagCompressed ≠ 0) ∧
    (Reader.mk [2, 0, 0, 0, 9, 9] 0).readBytes 4
      = some ([2, 0, 0, 0], Reader.mk [2, 0, 0, 0, 9, 9] 4) ∧
    (Reader.mk [2, 0, 0, 0, 9, 9] 4).readBytes (6 - 4)
      = some ([9, 9], Reader.mk [2, 0, 0, 0, 9, 9] 6) ∧
    ((getRecordReader some flagCompressed 6 (Reader.mk [2, 0, 0, 0, 9, 9] 0)
        = .error .modErr ↔ ([9, 9] : List Nat).length ≠ le32dec [2, 0, 0, 0]) ∧
      (([9, 9] : List Nat).length = le32dec [2, 0, 0, 0] →
        getRecordReader some flagCompressed 6 (Reader.mk [2, 0, 0, 0, 9, 9] 0)
          = .ok (⟨[9, 9], 0⟩, le32dec [2, 0, 0, 0]))) :=
  ⟨by decide, by decide, by decide,
    C7_compressed_size_check some flagCompressed 6 (Reader.mk [2, 0, 0, 0, 9, 9] 0)
      [2, 0, 0, 0] [9, 9] [9, 9] (Reader.mk [2, 0, 0, 0, 9, 9] 4)
      (Reader.mk [2, 0, 0, 0, 9, 9] 6) (by decide) (by decide) (by decide) rfl⟩

/-- C8 (amended): the FOG peek of an `XCLL` lighting subrecord succeeds
exactly when the declared size equals `structCalcSize xcllFmt` — which is
36 bytes, not 40 — and that many bytes are available; it then consumes a
fixed 36-byte payload laid out as 12 bytes of color, two f32 values
(near, far), two i32 values, and two f32 values (fade, clip). -/
theorem C8_xcll_layout (n : Nat) (s : List Nat) :
    ((unpackXcll n s).isSome ↔ n = structCalcSize xcllFmt ∧ n ≤ s.length) ∧
      structCalcSize xcllFmt = 36 ∧
      (∀ f rest, unpackXcll n s = some (f, rest) →
        s = (f.color ++ f.fogNear ++ f.fogFar ++ f.rotXY ++ f.rotZ ++ f.fade ++ f.clip)
            ++ rest ∧
          f.color.length = 12 ∧ f.fogNear.length = 4 ∧ f.fogFar.length = 4 ∧
          f.rotXY.length = 4 ∧ f.rotZ.length = 4 ∧ f.fade.length = 4 ∧
          f.clip.length = 4) := by
  refine ⟨⟨?_, ?_⟩, rfl, ?_⟩
  · intro hs
    obtain ⟨p, hp⟩ := Option.isSome_iff_exists.mp hs
    obtain ⟨f, rest⟩ := p
    obtain ⟨hn, c, hcl, hsp, -, -⟩ := unpackXcll_parts hp
    constructor
    · rw [hn]
      rfl
    · rw [hn, hsp]
      simp only [List.length_append, hcl, xcllSize_eq]
      omega
  · rintro ⟨rfl, hle⟩
    unfold unpackXcll
    rw [readN, if_pos hle]
    simp [xcllSize]
  · intro f rest hp
    obtain ⟨hn, c, hcl, hsp, hf, -⟩ := unpackXcll_parts hp
    subst hf
    obtain ⟨l1, l2, l3, l4, l5, l6, l7⟩ := splitXcll_lengths hcl
    refine ⟨?_, l1, l2, l3, l4, l5, l6, l7⟩
    rw [hsp, chunk_id hcl]

/-- Witness for C8: the 36-byte peek succeeds on a 40-byte stream. -/
theorem C8_xcll_layout_witness :
    (unpackXcll 36 (List.replicate 40 0)).isSome ∧ structCalcSize xcllFmt = 36 :=
  ⟨(C8_xcll_layout 36 (List.replicate 40 0)).1.mpr (by decide),
    (C8_xcll_layout 0 []).2.1⟩

/-- Counterexample to the literal C8: the unpacker consumes 36 bytes, not
40; a `CELL` whose `XCLL` declares 40 bytes makes the unpack fail, so the
scan of that file degrades to the undetermined sentinel instead of
consuming a 40-byte payload. -/
theorem C8_counterexample :
    structCalcSize xcllFmt = 36 ∧
    unpackXcll 40 (List.replicate 40 0) = none ∧
    (unpackXcll 36 (List.replicate 36 0)).isSome ∧
    scanOne cFOG false ⟨1, serL [Element.record tagCELL 0 7 0
      (.subs [⟨tagXCLL, List.replicate 40 0⟩])]⟩ = none := by
  decide

end WryeBash
